import Mathlib

/-!
Verification of the OpenManus agent core (src/app/agent/base.py,
src/app/agent/toolcall.py, src/app/agent/coordinator.py) against its
natural-language specification.

The Python sources are shallowly embedded: pure logic becomes Lean
functions, mutation of `self` becomes explicit state passing, `async`
control flow (which is cooperative and sequential here) becomes ordinary
sequential computation, and the file system / LLM / JSON library are
passed in explicitly as values or small environment records.  The
`while` loop of `BaseAgent.run` is modelled with explicit fuel: every
terminating execution of the source loop is captured by a sufficiently
large fuel value.
-/

namespace OpenManus

/-- Modelled from the spec (§3 Data Model): message roles form the closed
set user / system / assistant / tool.  The schema module itself
(`app/schema.py`) is not part of the supplied sources. -/
inductive Role where
  | user
  | system
  | assistant
  | tool
deriving DecidableEq

/-- Modelled from the spec (§3): the `function` part of a tool invocation,
a capability name plus a serialized (JSON text) argument payload.  The
payload is `Option String` because the model may omit it (`None`). -/
structure ToolCallFunction where
  name : String
  arguments : Option String
deriving DecidableEq

/-- Modelled from the spec (§3 Tool Invocation): id (opaque, unique within
a conversation), capability name and serialized argument payload. -/
structure ToolCall where
  id : String
  function : ToolCallFunction
deriving DecidableEq

/-- Modelled from the spec (§3 Message): role, nullable text content,
optional list of emitted tool invocations (assistant only), optional
tool-invocation correlation id (tool only), optional tool name on tool
messages, optional attached image payload.  A Python `tool_calls` of
`None` and of `[]` are both falsy and behave identically in every use
site of the embedded code, so both are modelled by the empty list. -/
structure Message where
  role : Role
  content : Option String
  tool_calls : List ToolCall
  tool_call_id : Option String
  name : Option String
  base64_image : Option String
deriving DecidableEq

/-- Python truthiness of an optional string: `None` and `""` are falsy. -/
def optStrTruthy : Option String → Bool
  | Option.none => false
  | Option.some s => !(s == "")

/-- Truthiness of `msg.content` (`if not last_message.content: ...`). -/
def contentTruthy (m : Message) : Bool := optStrTruthy m.content

/-- Constructor `Message.user_message` of app/schema.py (modelled from the spec). -/
def Message.user_message (c : String) : Message :=
  ⟨Role.user, Option.some c, [], Option.none, Option.none, Option.none⟩

/-- Constructor `Message.system_message` of app/schema.py (modelled from the spec). -/
def Message.system_message (c : String) : Message :=
  ⟨Role.system, Option.some c, [], Option.none, Option.none, Option.none⟩

/-- Constructor `Message.assistant_message` of app/schema.py (modelled from the spec). -/
def Message.assistant_message (c : String) : Message :=
  ⟨Role.assistant, Option.some c, [], Option.none, Option.none, Option.none⟩

/-- Constructor `Message.from_tool_calls` of app/schema.py (modelled from the spec):
an assistant message carrying text content plus the emitted invocations. -/
def Message.from_tool_calls (c : String) (tcs : List ToolCall) : Message :=
  ⟨Role.assistant, Option.some c, tcs, Option.none, Option.none, Option.none⟩

/-- Constructor `Message.tool_message` of app/schema.py (modelled from the spec):
a tool message correlating a result to an invocation id. -/
def Message.tool_message (c : String) (tcid : String) (n : String)
    (img : Option String) : Message :=
  ⟨Role.tool, Option.some c, [], Option.some tcid, Option.some n, img⟩

/-- Modelled from the spec (§3 Agent State): enum Idle / Running /
Finished / Error. -/
inductive AgentState where
  | idle
  | running
  | finished
  | error
deriving DecidableEq

/-! ## Agent core state (base.py `BaseAgent`)

Only the fields read or written by the embedded operations are kept:
`llm`, `description` and `system_prompt` are never touched by `run`,
`is_stuck`, `handle_stuck_state` or `_clean_tool_call_references`. -/

/-- State of a `BaseAgent` (base.py lines 15-52). -/
structure BaseAgent where
  name : String
  state : AgentState
  max_steps : Nat
  current_step : Nat
  duplicate_threshold : Nat
  memory : List Message
  next_step_prompt : Option String
deriving DecidableEq

/-- base.py lines 314-330, `BaseAgent.is_stuck`: duplicate-content
detection.  The last message only needs truthy content (its role is not
inspected); earlier messages count when they are assistant-authored with
identical content.  The source iterates the earlier messages in reverse,
which does not change the count. -/
def BaseAgent.is_stuck (a : BaseAgent) : Bool :=
  if a.memory.length < 2 then false
  else
    match a.memory.getLast? with
    | Option.none => false
    | Option.some last =>
      if !(contentTruthy last) then false
      else
        let dup := (a.memory.dropLast.filter
          (fun m => m.role == Role.assistant && m.content == last.content)).length
        decide (a.duplicate_threshold ≤ dup)

/-- base.py lines 309-310: the stuck prompt (a backslash line continuation
followed by eight spaces of indentation). -/
def stuckPrompt : String :=
  "        Observed duplicate responses. Consider new strategies and avoid repeating ineffective paths already attempted."

/-- Python `str(x)` on an optional string field inside an f-string:
`None` prints as "None". -/
def fstr : Option String → String
  | Option.none => "None"
  | Option.some s => s

/-- base.py lines 307-312, `BaseAgent.handle_stuck_state`: prepend the
stuck prompt to `next_step_prompt` (an f-string, so a `None` prompt is
rendered as the text "None"). -/
def BaseAgent.handle_stuck_state (a : BaseAgent) : BaseAgent :=
  { a with next_step_prompt :=
      Option.some (stuckPrompt ++ "\n" ++ fstr a.next_step_prompt) }

/-- Python `enumerate`: pair each element with its index starting at `n`. -/
def enumFrom (n : Nat) : List α → List (Nat × α)
  | [] => []
  | x :: xs => (n, x) :: enumFrom (n + 1) xs

/-- Ids collected from an assistant message in base.py lines 249-253:
only truthy (non-empty) invocation ids are recorded. -/
def truthyIds (m : Message) : List String :=
  (m.tool_calls.filter (fun tc => !(tc.id == ""))).map (fun tc => tc.id)

/-- Insertion into a Python dict modelled as an association list: an
existing key keeps its position and gets the new value, a new key is
appended.  Built from `[]` the key list stays duplicate-free. -/
def dictInsert (d : List (String × Nat)) (k : String) (v : Nat) :
    List (String × Nat) :=
  if d.any (fun p => p.1 == k) then
    d.map (fun p => if p.1 == k then (k, v) else p)
  else d ++ [(k, v)]

/-- base.py lines 256-259: the `tool_responses` dict mapping a truthy
`tool_call_id` of a tool message to the index of the (last) tool message
carrying it. -/
def toolResponsesDict (msgs : List Message) : List (String × Nat) :=
  (enumFrom 0 msgs).foldl
    (fun d p =>
      if p.2.role == Role.tool && optStrTruthy p.2.tool_call_id then
        dictInsert d (p.2.tool_call_id.getD "") p.1
      else d)
    []

/-- base.py lines 230-298, `BaseAgent._clean_tool_call_references`:
remove tool messages whose correlation id is not declared by any
assistant message.  Faithful to the dict bookkeeping of the source: when
several tool messages share the same orphan id, only the one at the
index recorded in the `tool_responses` dict (the last) is removed. -/
def clean_tool_call_references (msgs : List Message) : List Message :=
  let valid := (msgs.filter
      (fun m => m.role == Role.assistant && !m.tool_calls.isEmpty)).flatMap truthyIds
  let orphanIdx := ((toolResponsesDict msgs).filter
      (fun p => !(valid.contains p.1))).map (fun p => p.2)
  if orphanIdx.isEmpty then msgs
  else ((enumFrom 0 msgs).filter (fun p => !(orphanIdx.contains p.1))).map
    (fun p => p.2)

/-- Exception raised by `step()` as seen by run's handler (base.py line
186): the handler only distinguishes whether `e.__cause__` is a
`TokenLimitExceeded`. -/
inductive StepExc where
  | withTokenLimitCause (msg : String)
  | other (msg : String)
deriving DecidableEq

/-- Outcome of one `step()` call (base.py line 185). -/
inductive StepResult where
  | ok (result : String)
  | raise (e : StepExc)

/-- Exception propagating out of `run` (base.py). -/
inductive RunExc where
  | nameError (missing : String)
deriving DecidableEq

/-- base.py lines 186-194, the `except` handler around `step()`.  The
handler evaluates `isinstance(e.__cause__, TokenLimitExceeded)`, but
base.py never imports `TokenLimitExceeded` (lines 1-12), so in Python
that very name lookup raises `NameError` for every exception reaching
the handler; the NameError propagates out of `run` through the outer
handler (line 225, transient Error state) and the `state_context`
cleanup.  The intended token-limit early return on lines 192-193 is
unreachable. -/
def stepExcHandler (_e : StepExc) : RunExc := RunExc.nameError "TokenLimitExceeded"

/-- How the `while` loop of base.py lines 168-208 exits. -/
inductive LoopExit where
  | normal
  | raised (e : RunExc)
  | fuelOut
deriving DecidableEq

/-- The `while` loop of base.py lines 168-208 with explicit fuel: check
the guard, bump `current_step`, call `step`, route step exceptions
through `stepExcHandler`, run stuck detection, repeat. -/
def runLoop (step : BaseAgent → StepResult × BaseAgent) :
    Nat → BaseAgent → LoopExit × BaseAgent
  | 0, a => (LoopExit.fuelOut, a)
  | Nat.succ fuel, a =>
    if a.state == AgentState.running && decide (a.current_step < a.max_steps) then
      let a1 := { a with current_step := a.current_step + 1 }
      match step a1 with
      | (StepResult.raise e, a2) => (LoopExit.raised (stepExcHandler e), a2)
      | (StepResult.ok _, a2) =>
        let a3 := if a2.is_stuck then a2.handle_stuck_state else a2
        runLoop step fuel a3
    else (LoopExit.normal, a)

/-- Result of a `run` call. -/
inductive RunResult where
  | ok (summary : String)
  | raised (e : RunExc)
  | fuelOut
deriving DecidableEq

/-- base.py lines 134-228, `BaseAgent.run`.  The state is force-reset to
Idle and the step counter to 0 (lines 147-154); a truthy request clears
memory and appends the request as a user message (lines 157-160); the
history is repaired (line 163); `state_context(RUNNING)` records the
previous state (Idle, because of the forced reset) and restores it on
every exit path, including the exception path where a transient Error
state is immediately overwritten by the `finally` (lines 63-87).  On a
normal loop exit the max-steps summary is produced when `current_step`
reached `max_steps` without a Finished state (lines 210-222);
`current_step` is NOT reset on exit. -/
def BaseAgent.run (fuel : Nat) (step : BaseAgent → StepResult × BaseAgent)
    (request : Option String) (a : BaseAgent) : RunResult × BaseAgent :=
  let a1 := { a with state := AgentState.idle, current_step := 0 }
  let a2 := if optStrTruthy request then
      { a1 with memory := [Message.user_message (request.getD "")] }
    else a1
  let a3 := { a2 with memory := clean_tool_call_references a2.memory }
  let previous_state := a3.state
  let a4 := { a3 with state := AgentState.running }
  match runLoop step fuel a4 with
  | (LoopExit.raised e, b) => (RunResult.raised e, { b with state := previous_state })
  | (LoopExit.fuelOut, b) => (RunResult.fuelOut, { b with state := previous_state })
  | (LoopExit.normal, b) =>
    let msg := if decide (b.max_steps ≤ b.current_step) && !(b.state == AgentState.finished)
      then "Agent " ++ b.name ++ " reached maximum steps (" ++ toString b.max_steps ++
        ") without finishing."
      else "Agent " ++ b.name ++ " completed execution in " ++
        toString b.current_step ++ " steps."
    (RunResult.ok msg, { b with state := previous_state })

/-! ## Tool-calling cycle (toolcall.py `ToolCallAgent`) -/

/-- Modelled from the spec (§4.2): tool-choice mode Auto / Required /
None (`ToolChoice` of app/schema.py). -/
inductive ToolChoice where
  | auto
  | required
  | none
deriving DecidableEq

/-- Modelled from the spec (§6 Capability Registry): a capability result
is plain text optionally carrying image data; a handler either returns a
result or raises (modelled as `Except.error` with the exception text). -/
structure ToolResultM where
  output : String
  base64_image : Option String

/-- Modelled from the spec (§6): an executable capability handler taking
the parsed JSON argument payload (abstracted as a key-value list). -/
def ToolHandler := List (String × String) → Except String ToolResultM

/-- Python truthiness of a `ToolResult` (any field set). -/
def resultTruthy (r : ToolResultM) : Bool :=
  !(r.output == "") || optStrTruthy r.base64_image

/-- Python `str(result)` on a successful `ToolResult`: its output text. -/
def strOfResult (r : ToolResultM) : String := r.output

/-- The external JSON library (`json.loads`), passed in as an
environment: `Option.none` models a raised `json.JSONDecodeError`. -/
structure Env where
  jsonParse : String → Option (List (String × String))

/-- toolcall.py line 16. -/
def TOOL_CALL_REQUIRED : String := "Tool calls required but none provided"

/-- State of a `ToolCallAgent` (toolcall.py lines 19-38); only the fields
read or written by the embedded `think` / `act` / `execute_tool` /
`_clean_orphaned_tool_calls` are kept. -/
structure ToolAgent where
  state : AgentState
  memory : List Message
  next_step_prompt : Option String
  tool_choices : ToolChoice
  tool_calls : List ToolCall
  available_tools : List (String × ToolHandler)
  special_tool_names : List String
  max_observe : Option Nat
  current_base64_image : Option String

/-- The test `msg.role == "assistant" and msg.tool_calls` used throughout
toolcall.py lines 371-397. -/
def assistantWithTools (m : Message) : Bool :=
  m.role == Role.assistant && !m.tool_calls.isEmpty

/-- toolcall.py lines 371-376: the `assistant_tool_call_ids` dict mapping
each declared invocation id to the index of the (last) assistant message
declaring it.  Unlike base.py, this pass records every id without a
truthiness check. -/
def assistantDeclDict (msgs : List Message) : List (String × Nat) :=
  (enumFrom 0 msgs).foldl
    (fun d p =>
      if assistantWithTools p.2 then
        p.2.tool_calls.foldl (fun d2 tc => dictInsert d2 tc.id p.1) d
      else d)
    []

/-- toolcall.py lines 378-381: whether some tool message answers the
given invocation id (its `tool_call_id`, possibly `None`, is collected
into a set; `None` never equals a string id). -/
def respondedB (msgs : List Message) (id : String) : Bool :=
  msgs.any (fun m => m.role == Role.tool && m.tool_call_id == Option.some id)

/-- Python `getattr(msg, "content", "") or ""`. -/
def contentOrEmpty (m : Message) : String := m.content.getD ""

/-- toolcall.py lines 383-387: the `orphaned_tool_call_ids` set of pairs
(declared id, declaring message index) with no tool response. -/
def orphanedDeclPairs (msgs : List Message) : List (String × Nat) :=
  (assistantDeclDict msgs).filter (fun p => !(respondedB msgs p.1))

/-- toolcall.py lines 363-412, `ToolCallAgent._clean_orphaned_tool_calls`:
every assistant message declaring at least one invocation with no tool
response (matched through the dict entry `(id, index)`) is replaced by a
text-only assistant message; all other messages — including tool
messages whose id no longer matches any declaration — are kept. -/
def clean_orphaned_tool_calls (msgs : List Message) : List Message :=
  if (orphanedDeclPairs msgs).isEmpty then msgs
  else (enumFrom 0 msgs).map (fun p =>
    if assistantWithTools p.2 then
      if p.2.tool_calls.any (fun tc => (orphanedDeclPairs msgs).contains (tc.id, p.1))
      then Message.assistant_message (contentOrEmpty p.2)
      else p.2
    else p.2)

/-- Whether a message declares the invocation id `k`. -/
def declaresIn (m : Message) (k : String) : Bool :=
  assistantWithTools m && m.tool_calls.any (fun tc => tc.id == k)

/-- The index of the last message declaring `k` in an enumerated message
list — the value the `assistant_tool_call_ids` dict ends up holding. -/
def lastDecl (k : String) : List (Nat × Message) → Option Nat
  | [] => Option.none
  | p :: rest =>
    match lastDecl k rest with
    | Option.some i => Option.some i
    | Option.none => if declaresIn p.2 k then Option.some p.1 else Option.none

/-- Spec §3 wellformedness: only assistant messages carry declared tool
invocations. -/
def toolCallsOnlyOnAssistant (msgs : List Message) : Bool :=
  msgs.all (fun m => m.role == Role.assistant || m.tool_calls.isEmpty)

/-- Spec §3 wellformedness: an invocation id is declared by at most one
message of the conversation. -/
def uniqueDeclIds (msgs : List Message) : Bool :=
  (enumFrom 0 msgs).all (fun p => (enumFrom 0 msgs).all (fun q =>
    p.1 == q.1 ||
      !(assistantWithTools p.2 &&
        p.2.tool_calls.any (fun tc => declaresIn q.2 tc.id))))

/-- The first half of the repair invariant of spec §4.2: every tool
message's correlation id is declared by some earlier assistant
message. -/
def everyToolMsgMatched (msgs : List Message) : Bool :=
  (enumFrom 0 msgs).all (fun p =>
    !(p.2.role == Role.tool) ||
      (msgs.take p.1).any (fun m2 => m2.role == Role.assistant &&
        m2.tool_calls.any (fun tc => Option.some tc.id == p.2.tool_call_id)))

/-- A conversation whose assistant message declared two invocations but
only the first was answered (a partially answered message). -/
def partialMsgs : List Message :=
  [Message.from_tool_calls "hi"
    [⟨"id1", ⟨"t", Option.none⟩⟩, ⟨"id2", ⟨"t", Option.none⟩⟩],
   Message.tool_message "result" "id1" "t" Option.none]

/-- A conversation with one fully answered invocation and one later
unanswered invocation. -/
def answeredStripMsgs : List Message :=
  [Message.from_tool_calls "go" [⟨"id1", ⟨"t", Option.none⟩⟩],
   Message.tool_message "r1" "id1" "t" Option.none,
   Message.from_tool_calls "again" [⟨"id2", ⟨"t", Option.none⟩⟩]]

/-- The `tool_map` lookup of the capability registry (a Python dict built
from the tool list, so a duplicated name keeps the last handler). -/
def lookupTool (tools : List (String × ToolHandler)) (n : String) :
    Option ToolHandler :=
  ((tools.filter (fun p => p.1 == n)).getLast?).map (fun p => p.2)

/-- Python `command.function.arguments or "\x7b\x7d"` (toolcall.py line
260): a `None` or empty payload defaults to the empty JSON object. -/
def argOrEmptyObj : Option String → String
  | Option.none => "\x7b\x7d"
  | Option.some s => if s == "" then "\x7b\x7d" else s

/-- toolcall.py lines 359-361, `_is_special_tool` (combined with
`_should_finish_execution`, which is constantly true). -/
def isSpecialTool (special : List String) (n : String) : Bool :=
  special.any (fun s => s.toLower == n.toLower)

/-- toolcall.py lines 233-342, `ToolCallAgent.execute_tool`: run one
invocation with per-invocation error handling.  An invalid command
(empty name), an unknown capability, a malformed JSON payload and a
handler exception each yield an "Error: …" observation and leave the
agent unchanged; a successful special tool forces the Finished state; a
result image is latched into `current_base64_image`.  The
progress-update branches of the source only emit status text and have no
effect on the returned observation or the agent state. -/
def execute_tool (env : Env) (a : ToolAgent) (command : ToolCall) :
    String × ToolAgent :=
  if command.function.name == "" then ("Error: Invalid command format", a)
  else
    let n := command.function.name
    match lookupTool a.available_tools n with
    | Option.none => ("Error: Unknown tool \x27" ++ n ++ "\x27", a)
    | Option.some handler =>
      match env.jsonParse (argOrEmptyObj command.function.arguments) with
      | Option.none =>
        ("Error: Error parsing arguments for " ++ n ++ ": Invalid JSON format", a)
      | Option.some args =>
        match handler args with
        | Except.error e =>
          ("Error: ⚠️ Tool \x27" ++ n ++ "\x27 encountered a problem: " ++ e, a)
        | Except.ok result =>
          let a1 := if isSpecialTool a.special_tool_names n then
              { a with state := AgentState.finished }
            else a
          let a2 := if optStrTruthy result.base64_image then
              { a1 with current_base64_image := result.base64_image }
            else a1
          let obs := if resultTruthy result then
              "Observed output of cmd `" ++ n ++ "` executed:\n" ++ strOfResult result
            else "Cmd `" ++ n ++ "` completed with no output"
          (obs, a2)

/-- toolcall.py lines 211-212: `result[: self.max_observe]` guarded by
`if self.max_observe:`; an unset (`None`) or zero cap is falsy and
leaves the observation untruncated. -/
def truncObserve (cap : Option Nat) (s : String) : String :=
  match cap with
  | Option.none => s
  | Option.some k => if k == 0 then s else s.take k

/-- The `for` loop of toolcall.py lines 201-226: reset the latched image,
execute, truncate, append the correlated tool message, collect the
result, continue with the next invocation. -/
def act_loop (env : Env) : List ToolCall → ToolAgent → List String × ToolAgent
  | [], a => ([], a)
  | c :: rest, a =>
    let a0 := { a with current_base64_image := Option.none }
    let r := execute_tool env a0 c
    let result := truncObserve (r.2).max_observe r.1
    let a1 := { r.2 with memory := (r.2).memory ++
      [Message.tool_message result c.id c.function.name (r.2).current_base64_image] }
    let rec' := act_loop env rest a1
    (result :: rec'.1, rec'.2)

/-- Exception raised by `act`. -/
inductive ActExc where
  | valueError (msg : String)
  | indexError
deriving DecidableEq

/-- toolcall.py lines 182-231, `ToolCallAgent.act`: with no pending
invocations, Required mode raises `ValueError(TOOL_CALL_REQUIRED)` and
any other mode returns the last message content (an empty memory would
raise IndexError on `self.messages[-1]`); otherwise every invocation is
executed in order and the observations are joined. -/
def ToolAgent.act (env : Env) (a : ToolAgent) : Except ActExc String × ToolAgent :=
  if a.tool_calls.isEmpty then
    if a.tool_choices == ToolChoice.required then
      (Except.error (ActExc.valueError TOOL_CALL_REQUIRED), a)
    else
      match a.memory.getLast? with
      | Option.none => (Except.error ActExc.indexError, a)
      | Option.some m =>
        (Except.ok (if contentTruthy m then m.content.getD ""
          else "No content or commands to execute"), a)
  else
    let r := act_loop env a.tool_calls a
    (Except.ok (String.intercalate "\n\n" r.1), r.2)

/-- Modelled from the spec (§6): the Language Capability returns text
and/or tool invocations. -/
structure LLMResponse where
  content : Option String
  tool_calls : List ToolCall
deriving DecidableEq

/-- Outcome of the Language-Capability call `llm.ask_tool` (toolcall.py
line 58), abstracted per the spec (§6): a response (or `None`), a
`ValueError`, or some other exception that either does or does not carry
a `TokenLimitExceeded` cause. -/
inductive LLMOutcome where
  | ok (response : Option LLMResponse)
  | valueError (msg : String)
  | excTokenCause (msg : String)
  | excOther (msg : String)

/-- Exception propagating out of `think`. -/
inductive ThinkExc where
  | valueError (msg : String)
  | other (msg : String)
deriving DecidableEq

/-- toolcall.py lines 40-180, `ToolCallAgent.think`: append the steering
prompt when truthy, repair orphaned invocation references, consult the
Language Capability, then (a) re-raise a `ValueError`; (b) on an
exception with a `TokenLimitExceeded` cause append an assistant error
message, set Finished, and report no further action; (c) re-raise other
exceptions; (d) on a `None` response the internal RuntimeError is caught
by the inner handler, which appends an assistant error message and
reports no further action; (e) otherwise record the invocations, append
one assistant message, and report whether `act` is warranted: in None
mode only truthy text is kept; Required mode with no invocations defers
the failure to `act` by returning true. -/
def ToolAgent.think (outcome : LLMOutcome) (a : ToolAgent) :
    Except ThinkExc Bool × ToolAgent :=
  let a0 := if optStrTruthy a.next_step_prompt then
      { a with memory := a.memory ++
        [Message.user_message (a.next_step_prompt.getD "")] }
    else a
  let a1 := { a0 with memory := clean_orphaned_tool_calls a0.memory }
  match outcome with
  | LLMOutcome.valueError m => (Except.error (ThinkExc.valueError m), a1)
  | LLMOutcome.excOther m => (Except.error (ThinkExc.other m), a1)
  | LLMOutcome.excTokenCause m =>
    let err := "Maximum token limit reached, cannot continue execution: " ++ m
    (Except.ok false,
      { a1 with memory := a1.memory ++ [Message.assistant_message err],
                state := AgentState.finished })
  | LLMOutcome.ok response =>
    let tool_calls := match response with
      | Option.some r => r.tool_calls
      | Option.none => []
    let content := match response with
      | Option.some r => if optStrTruthy r.content then r.content.getD "" else ""
      | Option.none => ""
    let a2 := { a1 with tool_calls := tool_calls }
    match response with
    | Option.none =>
      (Except.ok false, { a2 with memory := a2.memory ++
        [Message.assistant_message
          "Error encountered while processing: No response received from the LLM"] })
    | Option.some _ =>
      if a2.tool_choices == ToolChoice.none then
        if !(content == "") then
          (Except.ok true, { a2 with memory := a2.memory ++
            [Message.assistant_message content] })
        else (Except.ok false, a2)
      else
        let amsg := if !tool_calls.isEmpty then
            Message.from_tool_calls content tool_calls
          else Message.assistant_message content
        let a3 := { a2 with memory := a2.memory ++ [amsg] }
        if a3.tool_choices == ToolChoice.required && tool_calls.isEmpty then
          (Except.ok true, a3)
        else if a3.tool_choices == ToolChoice.auto && tool_calls.isEmpty then
          (Except.ok (!(content == "")), a3)
        else (Except.ok (!tool_calls.isEmpty), a3)

/-! ## Coordinator (coordinator.py `CoordinatorAgent`)

The durable checklist document is modelled as the string it contains;
reading and writing the file become explicit arguments and results.  All
text processing is done on `List Char` to mirror Python string
semantics. -/

/-- Python whitespace for `str.strip()` (ASCII subset: space, tab,
newline, carriage return, vertical tab, form feed). -/
def isPySpace (c : Char) : Bool :=
  c == ' ' || c == '\t' || c == '\n' || c == '\r' || c == '\x0b' || c == '\x0c'

/-- Python `str.strip()` on a character list. -/
def pyStrip (l : List Char) : List Char :=
  ((l.dropWhile isPySpace).reverse.dropWhile isPySpace).reverse

/-- Python `str.strip()` on a string. -/
def pyStripS (s : String) : String := String.mk (pyStrip s.data)

/-- The anchored `re.match` of the pattern `- \[([ x])\] (.*)` against an
already stripped line (coordinator.py line 358): the six-character
literal `- [ ] ` or `- [x] ` must start the string; the greedy `(.*)`
group is the rest. -/
def anchoredTaskMark : List Char → Option (Bool × List Char)
  | '-' :: ' ' :: '[' :: ' ' :: ']' :: ' ' :: r => Option.some (false, r)
  | '-' :: ' ' :: '[' :: 'x' :: ']' :: ' ' :: r => Option.some (true, r)
  | _ => Option.none

/-- The `finditer` scan of the same pattern inside a single line
(coordinator.py line 283): regex scanning tries an anchored match at
each position left to right and yields the first success. -/
def findTaskMark : List Char → Option (Bool × List Char)
  | [] => Option.none
  | c :: rest =>
    match anchoredTaskMark (c :: rest) with
    | Option.some m => Option.some m
    | Option.none => findTaskMark rest

/-- The dropped trailing newline of a `readlines` line (relating it to
the corresponding `split("\n")` piece). -/
def stripEol (l : List Char) : List Char :=
  if l.getLast? == Option.some '\n' then l.dropLast else l

/-- Python `split("\n")` on a character list: the pieces between
newlines, always at least one (possibly empty) piece. -/
def splitOnNlChars : List Char → List (List Char)
  | [] => [[]]
  | c :: rest =>
    if c = '\n' then [] :: splitOnNlChars rest
    else
      match splitOnNlChars rest with
      | [] => [[c]]
      | l :: ls => (c :: l) :: ls

/-- Python `readlines()` on a character list: lines keeping their
trailing newline; a final piece without a newline is kept, an empty tail
produces nothing. -/
def splitLinesKeep : List Char → List (List Char)
  | [] => []
  | c :: rest =>
    if c = '\n' then [c] :: splitLinesKeep rest
    else
      match splitLinesKeep rest with
      | [] => [[c]]
      | l :: ls => (c :: l) :: ls

/-- Python `splitlines()` on a character list (for `\n`-separated text):
like `split("\n")` but without a trailing empty piece. -/
def splitlinesChars : List Char → List (List Char)
  | [] => []
  | c :: rest =>
    if c = '\n' then [] :: splitlinesChars rest
    else
      match splitlinesChars rest with
      | [] => [[c]]
      | l :: ls => (c :: l) :: ls

/-- Numeric value of a digit run (Python `int` of the matched digits). -/
def natOfDigits (l : List Char) : Nat :=
  l.foldl (fun n c => n * 10 + (c.toNat - 48)) 0

/-- The optional `(?:Task\s+)?` of the task-number pattern (coordinator.py
line 295): the literal `Task` followed by at least one whitespace
character; all following whitespace is consumed (equivalent to the
greedy `\s+`, since `\s` and `\d` are disjoint). -/
def dropTaskWord : List Char → Option (List Char)
  | 'T' :: 'a' :: 's' :: 'k' :: c :: rest =>
    if isPySpace c then Option.some (rest.dropWhile isPySpace) else Option.none
  | _ => Option.none

/-- The anchored `re.match` of `(?:Task\s+)?(\d+)[:.]?\s*(.*)` against a
task description (coordinator.py lines 295-298), returning the parsed
number and the stripped remaining description on success. -/
def parseTaskNum (desc : List Char) : Option (Nat × List Char) :=
  let s := match dropTaskWord desc with
    | Option.some r => r
    | Option.none => desc
  let digits := s.takeWhile Char.isDigit
  if digits.isEmpty then Option.none
  else
    let afterDigits := s.dropWhile Char.isDigit
    let afterPunct := match afterDigits with
      | ':' :: r => r
      | '.' :: r => r
      | r => r
    Option.some (natOfDigits digits, pyStrip (afterPunct.dropWhile isPySpace))

/-- Modelled from the spec (§3 Task): sequence number, description,
completed flag and the verbatim original checklist text used as the
persistence key (the text after the checkbox, stripped — this is what
coordinator.py stores in `task["original"]`). -/
structure Task where
  number : Nat
  description : String
  completed : Bool
  original : String
deriving DecidableEq

/-- The `previous_tasks` dict lookup of coordinator.py lines 287 and
311-314: the dict maps each original text to the last task carrying it,
and a hit with `completed = True` forces the reparsed flag. -/
def prevCompleted (prev : List Task) (orig : String) : Bool :=
  match (prev.filter (fun t => t.original == orig)).getLast? with
  | Option.some t => t.completed
  | Option.none => false

/-- The match-processing loop of coordinator.py lines 290-317: each match
becomes a task whose number comes from the `Task N:` prefix or from its
position, and whose completed flag is the checkbox state or the
preserved flag of a previously known completed task with the same
original text.  `k` counts the matches already processed. -/
def buildTasks (prev : List Task) : List (Bool × List Char) → Nat → List Task
  | [], _ => []
  | (isC, rest) :: ms, k =>
    let description := pyStrip rest
    let nd := match parseTaskNum description with
      | Option.some p => p
      | Option.none => (k + 1, description)
    { number := nd.1, description := String.mk nd.2,
      completed := isC || prevCompleted prev (String.mk description),
      original := String.mk description } :: buildTasks prev ms (k + 1)

/-- Stable insertion of a task into a number-sorted list (the element
goes before the first strictly later position with a key not smaller,
matching Python's stable `list.sort`). -/
def insertByNumber (t : Task) : List Task → List Task
  | [] => [t]
  | h :: rest =>
    if decide (t.number ≤ h.number) then t :: h :: rest
    else h :: insertByNumber t rest

/-- Stable sort by task number (Python `list.sort(key=...)`). -/
def sortTasks (l : List Task) : List Task := l.foldr insertByNumber []

/-- The matches found by `finditer` over the whole document: one per line
containing the checkbox literal (the pattern cannot cross a newline and
the greedy rest-group consumes the line). -/
def taskMatches (content : String) : List (Bool × List Char) :=
  (splitOnNlChars content.data).filterMap findTaskMark

/-- coordinator.py lines 278-334, `CoordinatorAgent.parse_tasks` as a
pure function of the previous in-memory task list and the document text:
find all checklist matches, build the tasks (preserving previously
completed flags keyed by original text), and sort by number.  The
trailing `update_todo_file` call of lines 332-334 is a file side effect
modelled separately. -/
def parse_tasks (prev : List Task) (content : String) : List Task :=
  sortTasks (buildTasks prev (taskMatches content) 0)

/-- The `task_completion_map` dict of coordinator.py line 350 (keyed by
original text, last entry winning). -/
def completionLookup (tasks : List Task) (desc : String) : Option Bool :=
  ((tasks.filter (fun t => t.original == desc)).getLast?).map (fun t => t.completed)

/-- The per-line body of coordinator.py lines 356-383: a line whose
stripped text anchors the task pattern and whose description is known in
the completion map is rewritten (always with a trailing newline, losing
any indentation) when the checkbox disagrees with the in-memory flag;
every other line is kept verbatim.  The boolean records whether the line
changed (`updates_made`). -/
def processLine (tasks : List Task) (line : List Char) : List Char × Bool :=
  match anchoredTaskMark (pyStrip line) with
  | Option.none => (line, false)
  | Option.some (cur, desc) =>
    match completionLookup tasks (String.mk desc) with
    | Option.none => (line, false)
    | Option.some comp =>
      if cur == comp then (line, false)
      else
        ((("- [".data ++ [if comp then 'x' else ' ']) ++ "] ".data ++ desc ++ ['\n']),
          true)

/-- coordinator.py lines 336-403, `CoordinatorAgent.update_todo_file` as
a pure function from the in-memory tasks and the current document text
to the new document text: every line is compared and possibly rewritten;
when no update is needed the file is not written at all (lines 386-391),
so the document is returned unchanged. -/
def update_todo_file (tasks : List Task) (content : String) : String :=
  let lines := splitLinesKeep content.data
  let pairs := lines.map (processLine tasks)
  if pairs.any (fun p => p.2) then String.mk ((pairs.map (fun p => p.1)).flatten)
  else content

/-- The parse/serialize round trip of an untouched document, starting
from an empty in-memory task list (§8 of the spec: "parsing a checklist
document, making no edits, and re-serializing it"). -/
def roundTrip (content : String) : String :=
  update_todo_file (parse_tasks [] content) content

/-- The descriptions (equivalently, original texts) of the tasks a
document parses to, in document order. -/
def taskDescriptions (content : String) : List String :=
  (taskMatches content).map (fun p => String.mk (pyStrip p.2))

/-- Outcome of the bounded delegated run
`asyncio.wait_for(self.manus_agent.run(task_prompt), timeout=600)`
(coordinator.py lines 505-508): a result string, a timeout, or an
exception. -/
inductive DelegateOutcome where
  | ok (result : String)
  | timeout
  | exc (msg : String)
deriving DecidableEq

/-- coordinator.py lines 509-531: the result string captured from the
delegated run — the delegate's own summary on success, an explicit
timeout message on `asyncio.TimeoutError`, an error message on any other
exception. -/
def delegateResult (outcome : DelegateOutcome) (n : Nat) : String :=
  match outcome with
  | DelegateOutcome.ok s => s
  | DelegateOutcome.timeout =>
    "Error: La tarea " ++ toString n ++
      " no pudo completarse dentro del tiempo límite (10 minutos)"
  | DelegateOutcome.exc m =>
    "Error al ejecutar la tarea " ++ toString n ++ ": " ++ m

/-- Python `sub in line` (substring containment). -/
def containsSub (hay pat : List Char) : Bool :=
  match hay with
  | [] => pat.isEmpty
  | _ :: rest => pat.isPrefixOf hay || containsSub rest pat

/-- Python `str.replace` with a nonempty pattern: every non-overlapping
occurrence, scanning left to right.  Only invoked with the literal
pattern `- [ ]`; an empty pattern would behave differently in Python but
never occurs. -/
def replaceAllNE (p : Char) (ps rep : List Char) : List Char → List Char
  | [] => []
  | c :: rest =>
    if (p :: ps).isPrefixOf (c :: rest) then
      rep ++ replaceAllNE p ps rep (rest.drop ps.length)
    else c :: replaceAllNE p ps rep rest
termination_by l => l.length
decreasing_by
  · simp only [List.length_drop, List.length_cons]
    omega
  · simp only [List.length_cons]
    omega

/-- The completed marker whose textual presence is verified after each
persistence attempt (coordinator.py line 566). -/
def completedMarker (original : String) : List Char :=
  "- [x] ".data ++ original.data

/-- coordinator.py lines 545-624: persist the completion mark with up to
three `update_todo_file` attempts verified by textual presence of the
marker, then fall back to a direct line-level substitution on the
document text read before the attempts (replacing `- [ ]` by `- [x]` in
every line containing the original text); when the fallback finds no
such line the document produced by the attempts is kept. -/
def persistCompletion (tasks : List Task) (original : String)
    (before : String) : String :=
  let c1 := update_todo_file tasks before
  if containsSub c1.data (completedMarker original) then c1
  else
    let c2 := update_todo_file tasks c1
    if containsSub c2.data (completedMarker original) then c2
    else
      let c3 := update_todo_file tasks c2
      if containsSub c3.data (completedMarker original) then c3
      else
        let beforeLines := splitlinesChars before.data
        let hit := fun (l : List Char) =>
          containsSub l original.data && containsSub l "- [ ]".data
        if beforeLines.any hit then
          String.mk ((beforeLines.map (fun l =>
            if hit l then replaceAllNE '-' " [ ]".data "- [x]".data l else l)).intersperse
            ['\n']).flatten
        else c3

/-- coordinator.py lines 417-642, `CoordinatorAgent.execute_task_with_manus`
as a pure function of the delegated outcome, the task list (the executed
task given by its index, matching the Python aliasing of the task dict
inside `self.tasks`), and the checklist document: capture the result
string, unconditionally mark the task completed (line 537), and persist
the mark.  The function always returns normally — timeouts and
exceptions of the delegate are absorbed into the result string, and the
persistence code catches its own exceptions.  The cooldown sleeps,
progress callbacks and summary log of the source have no effect on this
state.  An out-of-range index cannot arise in the source (the task comes
from `get_next_task`). -/
def execute_task_with_manus (outcome : DelegateOutcome) (tasks : List Task)
    (i : Nat) (todo : String) : String × List Task × String :=
  match tasks[i]? with
  | Option.none => ("", tasks, todo)
  | Option.some task =>
    let result := delegateResult outcome task.number
    let tasks1 := tasks.set i { task with completed := true }
    let todo1 := persistCompletion tasks1 task.original todo
    (result, tasks1, todo1)

/-- coordinator.py lines 405-415, `CoordinatorAgent.get_next_task`: the
first (lowest-numbered, since the list is number-sorted) incomplete
task. -/
def get_next_task (tasks : List Task) : Option Task :=
  tasks.find? (fun t => !t.completed)

/-! ## Concrete instances used by the theorems below -/

/-- Count of assistant-authored messages with the given content. -/
def countAssistantWith (l : List Message) (c : Option String) : Nat :=
  (l.filter (fun m => m.role == Role.assistant && m.content == c)).length

/-- A conversation whose last two (and only) messages are byte-identical
assistant messages. -/
def stuckPairAgent : BaseAgent :=
  { name := "a", state := AgentState.idle, max_steps := 10, current_step := 0,
    duplicate_threshold := 2,
    memory := [Message.assistant_message "dup", Message.assistant_message "dup"],
    next_step_prompt := Option.none }

/-- A conversation whose last three messages are byte-identical assistant
messages. -/
def stuckTripleAgent : BaseAgent :=
  { name := "a", state := AgentState.idle, max_steps := 10, current_step := 0,
    duplicate_threshold := 2,
    memory := [Message.assistant_message "dup", Message.assistant_message "dup",
      Message.assistant_message "dup"],
    next_step_prompt := Option.none }

/-- An idle agent with a step budget of 3. -/
def agentMax3 : BaseAgent :=
  { name := "test", state := AgentState.idle, max_steps := 3, current_step := 0,
    duplicate_threshold := 2, memory := [], next_step_prompt := Option.none }

/-- A step that never signals Finished and records each invocation by
appending one system message. -/
def countingStep : BaseAgent → StepResult × BaseAgent :=
  fun a => (StepResult.ok "ok",
    { a with memory := a.memory ++ [Message.system_message "step executed"] })

/-- A step whose exception carries a `TokenLimitExceeded` cause (the
situation base.py lines 188-193 mean to handle). -/
def tokenRaisingStep : BaseAgent → StepResult × BaseAgent :=
  fun a => (StepResult.raise (StepExc.withTokenLimitCause "context too long"), a)

/-- A step raising an exception without a token-limit cause. -/
def otherRaisingStep : BaseAgent → StepResult × BaseAgent :=
  fun a => (StepResult.raise (StepExc.other "boom"), a)

/-- A trivial JSON environment: only the empty object parses. -/
def env0 : Env :=
  ⟨fun s => if s == "\x7b\x7d" then Option.some [] else Option.none⟩

/-- A tool agent in Required mode with no pending invocations. -/
def requiredAgentW : ToolAgent :=
  { state := AgentState.idle, memory := [], next_step_prompt := Option.none,
    tool_choices := ToolChoice.required, tool_calls := [], available_tools := [],
    special_tool_names := [], max_observe := Option.none,
    current_base64_image := Option.none }

/-- A model response carrying text but zero tool invocations. -/
def respW : LLMResponse := ⟨Option.some "thinking out loud", []⟩

/-- A task list with one incomplete task, as in spec Scenario A/B. -/
def tasksW : List Task :=
  [{ number := 1, description := "write file A", completed := false,
     original := "Task 1: write file A" }]

/-- The checklist document backing `tasksW`. -/
def todoW : String := "- [ ] Task 1: write file A"

/-- The observation `execute_tool` produces for one invocation. -/
def toolObservation (env : Env) (a : ToolAgent) (c : ToolCall) : String :=
  (execute_tool env a c).1

/-- The image latched by `execute_tool` for one invocation, starting from
the per-invocation reset of `current_base64_image` (toolcall.py line
203). -/
def toolImage (env : Env) (a : ToolAgent) (c : ToolCall) : Option String :=
  ((execute_tool env { a with current_base64_image := Option.none } c).2).current_base64_image

/-- The observation of `execute_tool` as a function of the registry alone
(used to close the recursion of the act loop; tied to `execute_tool` by
`execute_tool_eq`). -/
def obsCore (env : Env) (tools : List (String × ToolHandler)) (c : ToolCall) :
    String :=
  if c.function.name == "" then "Error: Invalid command format"
  else
    match lookupTool tools c.function.name with
    | Option.none => "Error: Unknown tool \x27" ++ c.function.name ++ "\x27"
    | Option.some handler =>
      match env.jsonParse (argOrEmptyObj c.function.arguments) with
      | Option.none =>
        "Error: Error parsing arguments for " ++ c.function.name ++
          ": Invalid JSON format"
      | Option.some args =>
        match handler args with
        | Except.error e =>
          "Error: ⚠️ Tool \x27" ++ c.function.name ++ "\x27 encountered a problem: "
            ++ e
        | Except.ok result =>
          if resultTruthy result then
            "Observed output of cmd `" ++ c.function.name ++ "` executed:\n" ++
              strOfResult result
          else "Cmd `" ++ c.function.name ++ "` completed with no output"

/-- The truthy image produced by one invocation, as a function of the
registry alone. -/
def imgCore (env : Env) (tools : List (String × ToolHandler)) (c : ToolCall) :
    Option String :=
  if c.function.name == "" then Option.none
  else
    match lookupTool tools c.function.name with
    | Option.none => Option.none
    | Option.some handler =>
      match env.jsonParse (argOrEmptyObj c.function.arguments) with
      | Option.none => Option.none
      | Option.some args =>
        match handler args with
        | Except.error _ => Option.none
        | Except.ok result =>
          if optStrTruthy result.base64_image then result.base64_image
          else Option.none

/-- Whether one invocation succeeds and names a special tool (forcing the
Finished state), as a function of the registry alone. -/
def finishCore (env : Env) (tools : List (String × ToolHandler))
    (special : List String) (c : ToolCall) : Bool :=
  if c.function.name == "" then false
  else
    match lookupTool tools c.function.name with
    | Option.none => false
    | Option.some handler =>
      match env.jsonParse (argOrEmptyObj c.function.arguments) with
      | Option.none => false
      | Option.some args =>
        match handler args with
        | Except.error _ => false
        | Except.ok _ => isSpecialTool special c.function.name

/-- Whether one invocation fails: an invalid command, an unknown
capability name, a malformed (non-JSON) argument payload, or a handler
exception. -/
def invocationFails (env : Env) (tools : List (String × ToolHandler))
    (c : ToolCall) : Bool :=
  if c.function.name == "" then true
  else
    match lookupTool tools c.function.name with
    | Option.none => true
    | Option.some handler =>
      match env.jsonParse (argOrEmptyObj c.function.arguments) with
      | Option.none => true
      | Option.some args =>
        match handler args with
        | Except.error _ => true
        | Except.ok _ => false

/-- A handler that always raises. -/
def failHandler : ToolHandler := fun _ => Except.error "boom"

/-- An agent whose three pending invocations fail in the three ways:
unknown capability, malformed payload, handler exception. -/
def toolAgentW : ToolAgent :=
  { state := AgentState.idle, memory := [], next_step_prompt := Option.none,
    tool_choices := ToolChoice.auto,
    tool_calls := [⟨"1", ⟨"nope", Option.none⟩⟩,
      ⟨"2", ⟨"boomtool", Option.some "not json"⟩⟩,
      ⟨"3", ⟨"boomtool", Option.none⟩⟩],
    available_tools := [("boomtool", failHandler)], special_tool_names := [],
    max_observe := Option.none, current_base64_image := Option.none }

/-! ## Theorems -/

/-- Claim C2 (counterexample): a Conversation Store whose last two (and
only) assistant messages are byte-identical, with the default duplicate
threshold of 2, is NOT reported as stuck — `is_stuck` compares the last
message against the earlier messages only, so two identical assistant
messages yield one earlier match, below the threshold.  The claim
asserts `is_stuck` returns true here. -/
theorem is_stuck_two_identical_counterexample :
    stuckPairAgent.memory =
      [Message.assistant_message "dup", Message.assistant_message "dup"] ∧
    stuckPairAgent.duplicate_threshold = 2 ∧
    stuckPairAgent.is_stuck = false := by decide

/-- Claim C2 (amended): with the default threshold 2, `is_stuck` returns
true when the last message has truthy content and at least two EARLIER
assistant messages carry identical content (so three-or-more identical
assistant messages in total), and returns false when no earlier
assistant message repeats the last message's content; the role of the
last message itself is not inspected. -/
theorem is_stuck_threshold_behavior (a : BaseAgent)
    (h : a.duplicate_threshold = 2) :
    (∀ last, a.memory.getLast? = Option.some last → contentTruthy last = true →
      2 ≤ countAssistantWith a.memory.dropLast last.content → a.is_stuck = true) ∧
    (∀ last, a.memory.getLast? = Option.some last →
      countAssistantWith a.memory.dropLast last.content = 0 → a.is_stuck = false) := by
  constructor
  · intro last hlast hct hcount
    have hfil := List.length_filter_le
      (fun m => m.role == Role.assistant && m.content == last.content)
      a.memory.dropLast
    have hdl : a.memory.dropLast.length = a.memory.length - 1 :=
      List.length_dropLast a.memory
    have hlen : ¬ a.memory.length < 2 := by
      unfold countAssistantWith at hcount
      omega
    unfold BaseAgent.is_stuck
    simp only [hlast, hlen, if_false, hct, Bool.not_true, Bool.false_eq_true]
    unfold countAssistantWith at hcount
    rw [h]
    simp [hcount]
  · intro last hlast hcount
    unfold BaseAgent.is_stuck
    by_cases hlen : a.memory.length < 2
    · simp [hlen]
    · simp only [hlast, hlen, if_false]
      by_cases hct : contentTruthy last
      · simp only [hct, Bool.not_true, Bool.false_eq_true, if_false]
        unfold countAssistantWith at hcount
        rw [hcount, h]
        decide
      · simp [hct]

/-- Claim C2 witness: a store with three identical assistant messages is
reported stuck by the amended characterization. -/
theorem is_stuck_threshold_behavior_witness :
    stuckTripleAgent.duplicate_threshold = 2 ∧ stuckTripleAgent.is_stuck = true :=
  ⟨rfl, (is_stuck_threshold_behavior stuckTripleAgent rfl).1
    (Message.assistant_message "dup") (by decide) (by decide) (by decide)⟩

/-- Claim C3 (counterexample): with `maxSteps = 3` and a step that never
signals Finished, `run()` terminates but leaves `current_step = 3`; the
counter is NOT reset to 0 on exit (it is reset only at the start of the
next run, base.py line 154). -/
theorem run_max_steps_no_counter_reset :
    (BaseAgent.run 4 countingStep (Option.some "go") agentMax3).2.current_step = 3 ∧
    ¬ ((BaseAgent.run 4 countingStep (Option.some "go") agentMax3).2.current_step
      = 0) := by decide

/-- Claim C3 (amended): with `maxSteps = 3` and a step that never signals
Finished, `run()` invokes `step()` exactly 3 times (witnessed by the
three recorded system messages), reports a max-steps summary as a normal
result (not an exception), leaves the state at Idle, and leaves
`current_step` equal to `max_steps` (3) rather than resetting it to 0. -/
theorem run_max_steps_termination :
    BaseAgent.run 4 countingStep (Option.some "go") agentMax3 =
      (RunResult.ok "Agent test reached maximum steps (3) without finishing.",
       { agentMax3 with
          memory := [Message.user_message "go",
            Message.system_message "step executed",
            Message.system_message "step executed",
            Message.system_message "step executed"],
          current_step := 3 }) := by decide

/-- Claim C4 (code evaluated at the failing input): when `step()` raises
an exception whose cause is a token-budget failure, `run()` does NOT
return the error summary with a Finished state — base.py never imports
`TokenLimitExceeded`, so the handler's `isinstance` test itself raises
`NameError`, which propagates out of `run` (the state-context cleanup
still restores Idle).  The same `NameError` also replaces the
propagation of every other step exception. -/
theorem run_token_limit_raises_name_error :
    BaseAgent.run 4 tokenRaisingStep (Option.some "go") agentMax3 =
      (RunResult.raised (RunExc.nameError "TokenLimitExceeded"),
       { agentMax3 with memory := [Message.user_message "go"], current_step := 1 }) ∧
    BaseAgent.run 4 otherRaisingStep (Option.some "go") agentMax3 =
      (RunResult.raised (RunExc.nameError "TokenLimitExceeded"),
       { agentMax3 with memory := [Message.user_message "go"], current_step := 1 })
    := by decide

/-- Claim C10: after every call to `run()` — normal return, raised
exception, or even a loop that outlives the modelled fuel — the agent's
state field equals Idle: the forced reset makes Idle the state recorded
by `state_context`, and its cleanup restores it on every exit path, so a
subsequent `run()` is always admissible. -/
theorem run_always_ends_idle (fuel : Nat)
    (step : BaseAgent → StepResult × BaseAgent)
    (request : Option String) (a : BaseAgent) :
    (BaseAgent.run fuel step request a).2.state = AgentState.idle := by
  unfold BaseAgent.run
  dsimp only
  split <;> cases hreq : optStrTruthy request <;> simp_all

/-- Claim C5: in Required mode, when the model emits zero tool
invocations, `think` returns true without raising (deferring the
failure), and the subsequent `act` raises the tool-call-required error
(`ValueError(TOOL_CALL_REQUIRED)`); the error comes from `act`, not from
`think`. -/
theorem think_required_no_calls_defers_to_act (env : Env) (a : ToolAgent)
    (r : LLMResponse) (hmode : a.tool_choices = ToolChoice.required)
    (hcalls : r.tool_calls = []) :
    (ToolAgent.think (LLMOutcome.ok (Option.some r)) a).1 = Except.ok true ∧
    (ToolAgent.act env
        (ToolAgent.think (LLMOutcome.ok (Option.some r)) a).2).1 =
      Except.error (ActExc.valueError TOOL_CALL_REQUIRED) := by
  unfold ToolAgent.think ToolAgent.act
  cases hns : optStrTruthy a.next_step_prompt <;>
    simp [hns, hmode, hcalls]

/-- Claim C5 witness: the concrete Required-mode agent and a text-only
response exercise the deferral. -/
theorem think_required_no_calls_defers_to_act_witness :
    requiredAgentW.tool_choices = ToolChoice.required ∧ respW.tool_calls = [] ∧
    ((ToolAgent.think (LLMOutcome.ok (Option.some respW)) requiredAgentW).1 =
        Except.ok true ∧
      (ToolAgent.act env0
          (ToolAgent.think (LLMOutcome.ok (Option.some respW)) requiredAgentW).2).1 =
        Except.error (ActExc.valueError TOOL_CALL_REQUIRED)) :=
  ⟨rfl, rfl,
    think_required_no_calls_defers_to_act env0 requiredAgentW respW rfl rfl⟩

/-- Claim C7: a delegated run that times out or raises still returns
normally from `execute_task_with_manus` with the error captured as the
result string — an explicit timeout message (naming the time limit) in
the timeout case, an "Error"-prefixed string in both cases — the
executed Task's completed flag is set to true anyway, every other task
is untouched, and the delegate outcome is consumed exactly once (no
retry). -/
theorem execute_task_failure_nonfatal (outcome : DelegateOutcome)
    (tasks : List Task) (i : Nat) (todo : String) (task : Task)
    (hi : tasks[i]? = Option.some task)
    (hfail : outcome = DelegateOutcome.timeout ∨
      ∃ m, outcome = DelegateOutcome.exc m) :
    (∃ rest, (execute_task_with_manus outcome tasks i todo).1 = "Error" ++ rest) ∧
    ((execute_task_with_manus outcome tasks i todo).2.1)[i]? =
      Option.some { task with completed := true } ∧
    (outcome = DelegateOutcome.timeout →
      (execute_task_with_manus outcome tasks i todo).1 =
        "Error: La tarea " ++ toString task.number ++
          " no pudo completarse dentro del tiempo límite (10 minutos)") ∧
    ∀ j, j ≠ i →
      ((execute_task_with_manus outcome tasks i todo).2.1)[j]? = tasks[j]? := by
  have hilen : i < tasks.length := by
    by_contra hc
    rw [List.getElem?_eq_none (by omega)] at hi
    exact Option.noConfusion hi
  unfold execute_task_with_manus
  rw [hi]
  refine ⟨?_, ?_, ?_, ?_⟩
  · rcases hfail with hf | ⟨m, hf⟩ <;> subst hf
    · refine ⟨": La tarea " ++ toString task.number ++
        " no pudo completarse dentro del tiempo límite (10 minutos)", ?_⟩
      simp only [delegateResult]
      rw [show ("Error: La tarea " : String) = "Error" ++ ": La tarea " from by decide]
      simp only [String.append_assoc]
    · refine ⟨" al ejecutar la tarea " ++ toString task.number ++ ": " ++ m, ?_⟩
      simp only [delegateResult]
      rw [show ("Error al ejecutar la tarea " : String) =
        "Error" ++ " al ejecutar la tarea " from by decide]
      simp only [String.append_assoc]
  · simp [List.getElem?_set_self, hilen]
  · intro hf
    subst hf
    simp [delegateResult]
  · intro j hj
    simp [List.getElem?_set_ne (fun h => hj h.symm)]

/-- Claim C7 witness: the single-task list of Scenario B with a timed-out
delegate. -/
theorem execute_task_failure_nonfatal_witness :
    tasksW[0]? =
      Option.some
        { number := 1, description := "write file A",
          completed := false, original := "Task 1: write file A" } ∧
    ((∃ rest, (execute_task_with_manus DelegateOutcome.timeout tasksW 0 todoW).1 =
        "Error" ++ rest) ∧
      ((execute_task_with_manus DelegateOutcome.timeout tasksW 0 todoW).2.1)[0]? =
        Option.some
          { number := 1, description := "write file A", completed := true,
            original := "Task 1: write file A" } ∧
      (DelegateOutcome.timeout = DelegateOutcome.timeout →
        (execute_task_with_manus DelegateOutcome.timeout tasksW 0 todoW).1 =
          "Error: La tarea " ++ toString (1 : Nat) ++
            " no pudo completarse dentro del tiempo límite (10 minutos)") ∧
      ∀ j, j ≠ 0 →
        ((execute_task_with_manus DelegateOutcome.timeout tasksW 0 todoW).2.1)[j]? =
          tasksW[j]?) :=
  ⟨rfl, execute_task_failure_nonfatal DelegateOutcome.timeout tasksW 0 todoW _
    rfl (Or.inl rfl)⟩

/-- Evaluation of `execute_tool` in closed form: its observation, state change and
latched image are functions of the registry and the invocation alone. -/
theorem execute_tool_eq (env : Env) (a : ToolAgent) (c : ToolCall) :
    execute_tool env a c =
      (obsCore env a.available_tools c,
       { a with
          state := if finishCore env a.available_tools a.special_tool_names c
            then AgentState.finished else a.state,
          current_base64_image :=
            match imgCore env a.available_tools c with
            | Option.some i => Option.some i
            | Option.none => a.current_base64_image }) := by
  unfold execute_tool obsCore imgCore finishCore
  cases hn : c.function.name == "" <;>
    simp only [Bool.false_eq_true, if_false, if_true]
  case false =>
    cases hl : lookupTool a.available_tools c.function.name <;> dsimp only
    case none => rfl
    case some handler =>
      cases hj : env.jsonParse (argOrEmptyObj c.function.arguments) <;> dsimp only
      case none => rfl
      case some args =>
        cases hh : handler args <;> dsimp only
        case error e => rfl
        case ok result =>
          cases hs : isSpecialTool a.special_tool_names c.function.name <;>
            cases hb : optStrTruthy result.base64_image <;>
            simp only [hs, hb, Bool.false_eq_true, if_false, if_true] <;>
            try rfl
          all_goals
            cases hx : result.base64_image with
            | none => rw [hx] at hb; simp [optStrTruthy] at hb
            | some s => rfl

/-- The observation of `execute_tool` only depends on the registry. -/
theorem toolObservation_eq (env : Env) (a : ToolAgent) (c : ToolCall) :
    toolObservation env a c = obsCore env a.available_tools c := by
  unfold toolObservation
  rw [execute_tool_eq]

/-- The latched image of `execute_tool` only depends on the registry. -/
theorem toolImage_eq (env : Env) (a : ToolAgent) (c : ToolCall) :
    toolImage env a c = imgCore env a.available_tools c := by
  unfold toolImage
  rw [execute_tool_eq]
  dsimp only
  cases h : imgCore env a.available_tools c <;> simp

/-- Closed form of the act loop: one truncated observation and one
correlated tool message per invocation, in emission order. -/
theorem act_loop_spec (env : Env) (cmds : List ToolCall) (a : ToolAgent) :
    (act_loop env cmds a).1 =
      cmds.map (fun c => truncObserve a.max_observe (obsCore env a.available_tools c)) ∧
    (act_loop env cmds a).2.memory = a.memory ++ cmds.map (fun c =>
      Message.tool_message (truncObserve a.max_observe (obsCore env a.available_tools c))
        c.id c.function.name (imgCore env a.available_tools c)) ∧
    (act_loop env cmds a).2.available_tools = a.available_tools ∧
    (act_loop env cmds a).2.max_observe = a.max_observe := by
  induction cmds generalizing a with
  | nil => simp [act_loop]
  | cons c rest ih =>
    unfold act_loop
    dsimp only
    rw [execute_tool_eq]
    dsimp only
    cases himg : imgCore env a.available_tools c <;> dsimp only
    case none =>
      rcases ih { a with
          state := if finishCore env a.available_tools a.special_tool_names c
            then AgentState.finished else a.state,
          current_base64_image := Option.none,
          memory := a.memory ++
            [Message.tool_message
              (truncObserve a.max_observe (obsCore env a.available_tools c))
              c.id c.function.name Option.none] } with ⟨ih1, ih2, ih3, ih4⟩
      dsimp only at ih1 ih2 ih3 ih4
      refine ⟨?_, ?_, ?_, ?_⟩
      · rw [List.map_cons, ih1]
      · rw [ih2]
        simp [himg]
      · exact ih3
      · exact ih4
    case some i =>
      rcases ih { a with
          state := if finishCore env a.available_tools a.special_tool_names c
            then AgentState.finished else a.state,
          current_base64_image := Option.some i,
          memory := a.memory ++
            [Message.tool_message
              (truncObserve a.max_observe (obsCore env a.available_tools c))
              c.id c.function.name (Option.some i)] } with ⟨ih1, ih2, ih3, ih4⟩
      dsimp only at ih1 ih2 ih3 ih4
      refine ⟨?_, ?_, ?_, ?_⟩
      · rw [List.map_cons, ih1]
      · rw [ih2]
        simp [himg]
      · exact ih3
      · exact ih4

/-- Every failing invocation produces an observation starting with
"Error: ". -/
theorem obsCore_error_prefix (env : Env) (tools : List (String × ToolHandler))
    (c : ToolCall) (h : invocationFails env tools c = true) :
    ∃ rest, obsCore env tools c = "Error: " ++ rest := by
  unfold invocationFails at h
  unfold obsCore
  cases hn : c.function.name == "" <;> rw [hn] at h <;>
    simp only [Bool.false_eq_true, if_false, if_true]
  case true => exact ⟨"Invalid command format", by decide⟩
  case false =>
    simp only [Bool.false_eq_true, if_false] at h
    cases hl : lookupTool tools c.function.name <;> dsimp only
    case none =>
      refine ⟨"Unknown tool \x27" ++ c.function.name ++ "\x27", ?_⟩
      rw [show ("Error: Unknown tool \x27" : String) =
        "Error: " ++ "Unknown tool \x27" from by decide]
      simp only [String.append_assoc]
    case some handler =>
      rw [hl] at h
      dsimp only at h
      cases hj : env.jsonParse (argOrEmptyObj c.function.arguments) <;> dsimp only
      case none =>
        refine ⟨"Error parsing arguments for " ++ c.function.name ++
          ": Invalid JSON format", ?_⟩
        rw [show ("Error: Error parsing arguments for " : String) =
          "Error: " ++ "Error parsing arguments for " from by decide]
        simp only [String.append_assoc]
      case some args =>
        rw [hj] at h
        dsimp only at h
        cases hh : handler args <;> dsimp only
        case error e =>
          refine ⟨"⚠️ Tool \x27" ++ c.function.name ++
            "\x27 encountered a problem: " ++ e, ?_⟩
          rw [show ("Error: ⚠️ Tool \x27" : String) =
            "Error: " ++ "⚠️ Tool \x27" from by decide]
          simp only [String.append_assoc]
        case ok result =>
          rw [hh] at h
          dsimp only at h
          exact absurd h (by simp)

/-- Claim C6: with pending invocations, `act` executes every invocation
in emission order — appending exactly one correlated tool message per
invocation and joining all observations into a normal (non-raising)
result — and every per-invocation failure (invalid command, unknown
capability, malformed JSON payload, handler exception) is converted into
an observation beginning with "Error: " for that invocation alone, so it
aborts neither the remaining invocations nor the step. -/
theorem act_per_invocation_failure_isolation (env : Env) (a : ToolAgent)
    (h : a.tool_calls ≠ []) :
    (ToolAgent.act env a).1 = Except.ok (String.intercalate "\n\n"
      (a.tool_calls.map (fun c =>
        truncObserve a.max_observe (toolObservation env a c)))) ∧
    ((ToolAgent.act env a).2).memory = a.memory ++ a.tool_calls.map (fun c =>
      Message.tool_message (truncObserve a.max_observe (toolObservation env a c))
        c.id c.function.name (toolImage env a c)) ∧
    ∀ c ∈ a.tool_calls, invocationFails env a.available_tools c = true →
      ∃ rest, toolObservation env a c = "Error: " ++ rest := by
  have hobsF : (fun c => truncObserve a.max_observe (toolObservation env a c)) =
      (fun c => truncObserve a.max_observe (obsCore env a.available_tools c)) :=
    funext fun c => by rw [toolObservation_eq]
  have hmsgF : (fun c => Message.tool_message
        (truncObserve a.max_observe (toolObservation env a c))
        c.id c.function.name (toolImage env a c)) =
      (fun c => Message.tool_message
        (truncObserve a.max_observe (obsCore env a.available_tools c))
        c.id c.function.name (imgCore env a.available_tools c)) :=
    funext fun c => by rw [toolObservation_eq, toolImage_eq]
  have hne : a.tool_calls.isEmpty = false := by
    cases hcl : a.tool_calls with
    | nil => exact absurd hcl h
    | cons x xs => rfl
  rcases act_loop_spec env a.tool_calls a with ⟨h1, h2, _, _⟩
  unfold ToolAgent.act
  simp only [hne, Bool.false_eq_true, if_false]
  refine ⟨?_, ?_, ?_⟩
  · rw [h1, hobsF]
  · rw [h2, hmsgF]
  · intro c _ hc
    rw [toolObservation_eq]
    exact obsCore_error_prefix env a.available_tools c hc

/-- Claim C6 witness: three invocations failing in the three ways are all
executed, each leaving an "Error: " observation, none aborting the
step. -/
theorem act_per_invocation_failure_isolation_witness :
    toolAgentW.tool_calls ≠ [] ∧
    ((ToolAgent.act env0 toolAgentW).1 = Except.ok (String.intercalate "\n\n"
        (toolAgentW.tool_calls.map (fun c =>
          truncObserve toolAgentW.max_observe (toolObservation env0 toolAgentW c)))) ∧
      ((ToolAgent.act env0 toolAgentW).2).memory =
        toolAgentW.memory ++ toolAgentW.tool_calls.map (fun c =>
          Message.tool_message
            (truncObserve toolAgentW.max_observe (toolObservation env0 toolAgentW c))
            c.id c.function.name (toolImage env0 toolAgentW c)) ∧
      ∀ c ∈ toolAgentW.tool_calls,
        invocationFails env0 toolAgentW.available_tools c = true →
          ∃ rest, toolObservation env0 toolAgentW c = "Error: " ++ rest) :=
  ⟨by decide, act_per_invocation_failure_isolation env0 toolAgentW (by decide)⟩

/-- Helper: the element delivered by `getLast?` is a member. -/
theorem mem_of_getLast?_eq_some {α : Type} {l : List α} {a : α}
    (h : l.getLast? = Option.some a) : a ∈ l := by
  have hx : a ∈ l.getLast? := h
  rcases List.mem_getLast?_eq_getLast hx with ⟨hne, heq⟩
  exact heq ▸ List.getLast_mem hne

/-- Membership is preserved by the stable insertion. -/
theorem mem_insertByNumber {t x : Task} {l : List Task} :
    t ∈ insertByNumber x l ↔ t = x ∨ t ∈ l := by
  induction l with
  | nil => simp [insertByNumber]
  | cons h rest ih =>
    unfold insertByNumber
    by_cases hc : x.number ≤ h.number <;> simp [hc, ih] <;> tauto

/-- Sorting by number preserves membership. -/
theorem mem_sortTasks {t : Task} {l : List Task} : t ∈ sortTasks l ↔ t ∈ l := by
  induction l with
  | nil => simp [sortTasks]
  | cons h rest ih =>
    show t ∈ insertByNumber h (sortTasks rest) ↔ _
    rw [mem_insertByNumber, ih]
    simp

/-- Every task produced by the match-processing loop comes from one
match, its original text is the stripped rest of the line, and its
completed flag combines the checkbox with the preserved flag. -/
theorem mem_buildTasks {prev : List Task} {ms : List (Bool × List Char)}
    {k : Nat} {t : Task} (h : t ∈ buildTasks prev ms k) :
    ∃ b r, (b, r) ∈ ms ∧ t.original = String.mk (pyStrip r) ∧
      t.completed = (b || prevCompleted prev (String.mk (pyStrip r))) := by
  induction ms generalizing k with
  | nil => simp [buildTasks] at h
  | cons m rest ih =>
    rcases m with ⟨b, r⟩
    unfold buildTasks at h
    rcases List.mem_cons.mp h with h1 | h2
    · exact ⟨b, r, List.mem_cons_self _ _, by rw [h1], by rw [h1]⟩
    · rcases ih h2 with ⟨b2, r2, hm, ho, hc⟩
      exact ⟨b2, r2, List.mem_cons_of_mem _ hm, ho, hc⟩

/-- Claim C8 (counterexample): the completed flag is not monotone when
two previously known tasks share the same original text — the
preservation dict keeps only the last one, so an earlier completed task
is shadowed by a later incomplete one and re-parsing reverts its flag to
false even though its verbatim original line matches a previously known
completed task. -/
theorem parse_tasks_duplicate_original_counterexample :
    (∃ u ∈ ([⟨1, "A", true, "A"⟩, ⟨2, "A", false, "A"⟩] : List Task),
      u.original = "A" ∧ u.completed = true) ∧
    (parse_tasks [⟨1, "A", true, "A"⟩, ⟨2, "A", false, "A"⟩]
        "- [ ] A\n- [ ] A").all (fun t => !t.completed) = true ∧
    (parse_tasks [⟨1, "A", true, "A"⟩, ⟨2, "A", false, "A"⟩]
        "- [ ] A\n- [ ] A").length = 2 ∧
    (parse_tasks [⟨1, "A", true, "A"⟩, ⟨2, "A", false, "A"⟩]
        "- [ ] A\n- [ ] A").all (fun t => t.original == "A") = true := by decide

/-- Claim C8 (amended): re-parsing preserves `completed = true` for every
line whose text matches a previously known completed task, provided
every previously known task sharing that original text is completed (the
preservation dict is keyed by the original text with the last entry
winning, so a later incomplete duplicate shadows an earlier completed
one); under that proviso the flag never reverts across re-parses. -/
theorem parse_tasks_preserves_completed (prev : List Task) (content : String)
    (o : String) (hex : ∃ u ∈ prev, u.original = o)
    (hall : ∀ u ∈ prev, u.original = o → u.completed = true) :
    ∀ t ∈ parse_tasks prev content, t.original = o → t.completed = true := by
  intro t ht hto
  have hprev : prevCompleted prev o = true := by
    unfold prevCompleted
    rcases hex with ⟨u, hu, huo⟩
    have hufil : u ∈ prev.filter (fun v => v.original == o) := by
      rw [List.mem_filter]
      exact ⟨hu, by simp [huo]⟩
    have hne : prev.filter (fun v => v.original == o) ≠ [] :=
      List.ne_nil_of_mem hufil
    rcases Option.isSome_iff_exists.mp (List.getLast?_isSome.mpr hne) with ⟨w, hw⟩
    rw [hw]
    have hwmem : w ∈ prev.filter (fun v => v.original == o) :=
      mem_of_getLast?_eq_some hw
    rcases List.mem_filter.mp hwmem with ⟨hwp, hwo⟩
    exact hall w hwp (by simpa using hwo)
  unfold parse_tasks at ht
  rcases mem_buildTasks (mem_sortTasks.mp ht) with ⟨b, r, _, ho, hc⟩
  rw [hto] at ho
  rw [hc, ← ho, hprev, Bool.or_true]

/-- Claim C8 witness: a completed task whose line reappears unmarked in
the document keeps its completed flag across the re-parse. -/
theorem parse_tasks_preserves_completed_witness :
    (∃ u ∈ ([⟨1, "write file A", true, "Task 1: write file A"⟩] : List Task),
      u.original = "Task 1: write file A") ∧
    ∀ t ∈ parse_tasks [⟨1, "write file A", true, "Task 1: write file A"⟩]
        "- [ ] Task 1: write file A",
      t.original = "Task 1: write file A" → t.completed = true :=
  ⟨⟨⟨1, "write file A", true, "Task 1: write file A"⟩, by decide, rfl⟩,
    parse_tasks_preserves_completed
      [⟨1, "write file A", true, "Task 1: write file A"⟩]
      "- [ ] Task 1: write file A" "Task 1: write file A"
      ⟨⟨1, "write file A", true, "Task 1: write file A"⟩, by decide, rfl⟩
      (by decide)⟩

/-- Claim C9 (counterexample): a well-formed document with two task lines
sharing one description but disagreeing in their checkboxes is changed
by the parse/serialize round trip: the completion map keyed by
description keeps the last flag, so the first line is rewritten. -/
theorem roundtrip_duplicate_description_counterexample :
    roundTrip "- [x] A\n- [ ] A" = "- [ ] A\n- [ ] A" ∧
    ¬ (roundTrip "- [x] A\n- [ ] A" = "- [x] A\n- [ ] A") := by decide

/-- Helper: a Python-whitespace character is not a dash. -/
theorem isPySpace_ne_dash {c : Char} (h : isPySpace c = true) : ¬ c = '-' := by
  intro hc
  subst hc
  simp [isPySpace] at h

/-- Helper: a Python-whitespace character does not start the task
pattern. -/
theorem anchoredTaskMark_ws_none {c : Char} {t : List Char}
    (h : isPySpace c = true) : anchoredTaskMark (c :: t) = Option.none := by
  unfold anchoredTaskMark
  split
  · rename_i heq
    rw [List.cons.injEq] at heq
    exact absurd heq.1 (isPySpace_ne_dash h)
  · rename_i heq
    rw [List.cons.injEq] at heq
    exact absurd heq.1 (isPySpace_ne_dash h)
  · rfl

/-- Helper: inversion of a successful anchored match. -/
theorem anchoredTaskMark_eq_some {l : List Char} {b : Bool} {d : List Char}
    (h : anchoredTaskMark l = Option.some (b, d)) :
    l = '-' :: ' ' :: '[' :: (if b then 'x' else ' ') :: ']' :: ' ' :: d := by
  unfold anchoredTaskMark at h
  split at h
  · rw [Option.some.injEq, Prod.mk.injEq] at h
    obtain ⟨hb, hd⟩ := h
    subst hb
    subst hd
    rfl
  · rw [Option.some.injEq, Prod.mk.injEq] at h
    obtain ⟨hb, hd⟩ := h
    subst hb
    subst hd
    rfl
  · exact Option.noConfusion h

/-- Helper: the scan skips a whitespace-only prefix. -/
theorem findTaskMark_ws_append {w r : List Char}
    (hw : ∀ c ∈ w, isPySpace c = true) :
    findTaskMark (w ++ r) = findTaskMark r := by
  induction w with
  | nil => rfl
  | cons c cs ih =>
    rw [List.cons_append]
    show (match anchoredTaskMark (c :: (cs ++ r)) with
      | Option.some m => Option.some m
      | Option.none => findTaskMark (cs ++ r)) = findTaskMark r
    rw [anchoredTaskMark_ws_none (hw c (List.mem_cons_self c cs))]
    exact ih (fun x hx => hw x (List.mem_cons_of_mem c hx))

/-- Helper: the scan succeeds immediately on the pattern itself. -/
theorem findTaskMark_at_pattern (b : Bool) (r : List Char) :
    findTaskMark ('-' :: ' ' :: '[' :: (if b then 'x' else ' ') :: ']' :: ' ' :: r) =
      Option.some (b, r) := by
  cases b <;> rfl

/-- Helper: dropping whitespace from a whitespace-prefixed list. -/
theorem dropWhile_ws_append {w r : List Char}
    (hw : ∀ c ∈ w, isPySpace c = true) :
    (w ++ r).dropWhile isPySpace = r.dropWhile isPySpace := by
  induction w with
  | nil => rfl
  | cons c cs ih =>
    rw [List.cons_append, List.dropWhile_cons, hw c (List.mem_cons_self c cs),
      if_pos rfl]
    exact ih (fun x hx => hw x (List.mem_cons_of_mem c hx))

/-- Helper: a line decomposes into whitespace, its stripped core, and
whitespace. -/
theorem exists_strip_decomp (l : List Char) :
    ∃ lead trail, l = lead ++ pyStrip l ++ trail ∧
      (∀ c ∈ lead, isPySpace c = true) ∧ (∀ c ∈ trail, isPySpace c = true) := by
  refine ⟨l.takeWhile isPySpace,
    ((l.dropWhile isPySpace).reverse.takeWhile isPySpace).reverse, ?_, ?_, ?_⟩
  · conv_lhs => rw [← List.takeWhile_append_dropWhile isPySpace l]
    rw [List.append_assoc]
    congr 1
    conv_lhs => rw [← List.reverse_reverse (l.dropWhile isPySpace),
      ← List.takeWhile_append_dropWhile isPySpace (l.dropWhile isPySpace).reverse]
    rw [List.reverse_append]
    rfl
  · exact fun c hc => List.mem_takeWhile_imp hc
  · intro c hc
    rw [List.mem_reverse] at hc
    exact List.mem_takeWhile_imp hc

/-- Helper: stripping ignores trailing whitespace. -/
theorem pyStrip_append_ws {d t : List Char}
    (ht : ∀ c ∈ t, isPySpace c = true) : pyStrip (d ++ t) = pyStrip d := by
  unfold pyStrip
  by_cases hd : (d.dropWhile isPySpace).isEmpty
  · rw [List.dropWhile_append, if_pos hd]
    rw [List.isEmpty_iff] at hd
    rw [hd]
    have hdt : t.dropWhile isPySpace = [] := List.dropWhile_eq_nil_iff.mpr ht
    rw [hdt]
  · rw [List.dropWhile_append, if_neg hd, List.reverse_append,
      dropWhile_ws_append (fun c hc => ht c (List.mem_reverse.mp hc))]

/-- Helper: the head delivered by `dropWhile` fails the predicate. -/
theorem dropWhile_head_false {p : Char → Bool} {l : List Char} {c : Char}
    {r : List Char} (h : l.dropWhile p = c :: r) : p c = false := by
  induction l with
  | nil => exact absurd h (by simp)
  | cons a t ih =>
    rw [List.dropWhile_cons] at h
    by_cases ha : p a
    · rw [if_pos ha] at h
      exact ih h
    · rw [if_neg ha] at h
      rw [List.cons.injEq] at h
      rw [← h.1]
      simp [ha]

/-- Helper: the stripped core neither starts nor ends in whitespace, so
stripping it again changes nothing. -/
theorem pyStrip_idem (l : List Char) : pyStrip (pyStrip l) = pyStrip l := by
  have hpre : ∀ c r, pyStrip l = c :: r → isPySpace c = false := by
    intro c r h
    rcases @List.dropWhile_suffix Char ((l.dropWhile isPySpace).reverse) isPySpace
      with ⟨s, hs⟩
    have hm : l.dropWhile isPySpace = c :: (r ++ s.reverse) := by
      have h2 : l.dropWhile isPySpace = ((l.dropWhile isPySpace).reverse).reverse :=
        (List.reverse_reverse _).symm
      rw [h2, ← hs, List.reverse_append]
      have h3 : ((l.dropWhile isPySpace).reverse.dropWhile isPySpace).reverse =
          c :: r := h
      rw [h3, List.cons_append]
    exact dropWhile_head_false hm
  have hsufx : ∀ c r, (pyStrip l).reverse = c :: r → isPySpace c = false := by
    intro c r h
    have h2 : ((l.dropWhile isPySpace).reverse.dropWhile isPySpace) = c :: r := by
      have h3 : (pyStrip l).reverse =
          ((l.dropWhile isPySpace).reverse.dropWhile isPySpace) :=
        List.reverse_reverse _
      rw [← h3, h]
    exact dropWhile_head_false h2
  have h1 : (pyStrip l).dropWhile isPySpace = pyStrip l := by
    cases hc : pyStrip l with
    | nil => simp
    | cons c r =>
      rw [List.dropWhile_cons, hpre c r hc]
      simp
  show (((pyStrip l).dropWhile isPySpace).reverse.dropWhile isPySpace).reverse =
    pyStrip l
  rw [h1]
  cases hc : (pyStrip l).reverse with
  | nil =>
    have hnil : pyStrip l = [] := by
      have h4 := congrArg List.reverse hc
      rwa [List.reverse_reverse] at h4
    rw [hnil]
    rfl
  | cons c r =>
    rw [List.dropWhile_cons, hsufx c r hc, if_neg (by simp)]
    have h4 := congrArg List.reverse hc
    rw [List.reverse_reverse] at h4
    exact h4.symm

/-- Helper: `stripEol` distributes over a cons except for a lone
newline. -/
theorem stripEol_cons {c : Char} {l : List Char} (h : l = [] → ¬ c = '\n') :
    stripEol (c :: l) = c :: stripEol l := by
  cases l with
  | nil =>
    have hc := h rfl
    simp [stripEol, hc]
  | cons d t =>
    unfold stripEol
    rw [List.getLast?_cons_cons]
    cases hg : ((d :: t).getLast? == Option.some '\n') <;> simp [hg]

/-- Helper: only the empty text has no `readlines` lines. -/
theorem splitLinesKeep_eq_nil {s : List Char} (h : splitLinesKeep s = []) :
    s = [] := by
  cases s with
  | nil => rfl
  | cons c rest =>
    unfold splitLinesKeep at h
    by_cases hc : c = '\n'
    · rw [if_pos hc] at h
      exact List.noConfusion h
    · rw [if_neg hc] at h
      rcases hsk : splitLinesKeep rest with _ | ⟨l, ls⟩ <;> rw [hsk] at h <;>
        exact List.noConfusion h

/-- Helper: the `split("\n")` pieces are the `readlines` lines with their
newline removed, possibly followed by one trailing empty piece. -/
theorem splitOn_splitKeep (s : List Char) :
    ∃ tail, splitOnNlChars s = (splitLinesKeep s).map stripEol ++ tail ∧
      (tail = [] ∨ tail = [[]]) := by
  induction s with
  | nil => exact ⟨[[]], rfl, Or.inr rfl⟩
  | cons c rest ih =>
    rcases ih with ⟨tail, h1, h2⟩
    by_cases hc : c = '\n'
    · refine ⟨tail, ?_, h2⟩
      unfold splitOnNlChars splitLinesKeep
      rw [if_pos hc, if_pos hc, List.map_cons, h1, List.cons_append]
      subst hc
      rfl
    · cases hsk : splitLinesKeep rest with
      | nil =>
        have hr : rest = [] := splitLinesKeep_eq_nil hsk
        subst hr
        refine ⟨[], ?_, Or.inl rfl⟩
        unfold splitOnNlChars splitLinesKeep
        rw [if_neg hc, if_neg hc]
        simp [splitOnNlChars, splitLinesKeep, stripEol, hc]
      | cons l ls =>
        refine ⟨tail, ?_, h2⟩
        unfold splitOnNlChars splitLinesKeep
        rw [if_neg hc, if_neg hc, hsk]
        rw [hsk, List.map_cons] at h1
        cases hso : splitOnNlChars rest with
        | nil =>
          rw [hso] at h1
          rcases h2 with h2 | h2 <;> rw [h2] at h1 <;>
            exact absurd h1.symm (by simp)
        | cons l0 ls0 =>
          rw [hso, List.cons_append] at h1
          rw [List.cons.injEq] at h1
          rw [List.map_cons, List.cons_append, h1.2]
          have hlcons : stripEol (c :: l) = c :: stripEol l := by
            refine stripEol_cons ?_
            intro hl
            subst hl
            intro hcn
            exact hc hcn
          rw [hlcons, ← h1.1]

/-- Helper: a `readlines` line, with its newline removed, is a
`split("\n")` piece. -/
theorem stripEol_mem_splitOn {s L : List Char} (hL : L ∈ splitLinesKeep s) :
    stripEol L ∈ splitOnNlChars s := by
  rcases splitOn_splitKeep s with ⟨tail, h1, _⟩
  rw [h1]
  exact List.mem_append_left _ (List.mem_map_of_mem stripEol hL)

/-- Helper: a line equals its newline-stripped form, possibly plus the
newline. -/
theorem stripEol_or (L : List Char) :
    L = stripEol L ∨ L = stripEol L ++ ['\n'] := by
  unfold stripEol
  cases hg : (L.getLast? == Option.some '\n')
  · rw [if_neg (by simp [hg])]
    exact Or.inl rfl
  · rw [if_pos (by simp [hg])]
    have hsome : L.getLast? = Option.some '\n' := by
      cases hL : L.getLast? with
      | none => rw [hL] at hg; exact Bool.noConfusion hg
      | some x =>
        rw [hL] at hg
        have : x = '\n' := by simpa using hg
        rw [this]
    have hne : L ≠ [] := by
      intro h
      rw [h] at hsome
      exact Option.noConfusion hsome
    right
    have hlast : L.getLast hne = '\n' := by
      have := List.getLast?_eq_getLast_of_ne_nil hne
      rw [hsome] at this
      exact (Option.some.injEq _ _ ▸ this.symm)
    conv_lhs => rw [← List.dropLast_append_getLast hne]
    rw [hlast]

/-- Helper: stripping a line ignores its trailing newline. -/
theorem pyStrip_stripEol (L : List Char) : pyStrip (stripEol L) = pyStrip L := by
  rcases stripEol_or L with h | h
  · rw [← h]
  · conv_rhs => rw [h]
    exact (pyStrip_append_ws (by intro c hc; simp at hc; simp [hc, isPySpace])).symm

/-- Helper: every match yields a task with the stripped text as original
and the checkbox (combined with the preserved flag) as completed. -/
theorem buildTasks_exists {prev : List Task} {ms : List (Bool × List Char)}
    {b : Bool} {r : List Char} (h : (b, r) ∈ ms) (k : Nat) :
    ∃ t ∈ buildTasks prev ms k, t.original = String.mk (pyStrip r) ∧
      t.completed = (b || prevCompleted prev (String.mk (pyStrip r))) := by
  induction ms generalizing k with
  | nil => exact absurd h (by simp)
  | cons m rest ih =>
    rcases List.mem_cons.mp h with h1 | h2
    · subst h1
      unfold buildTasks
      exact ⟨_, List.mem_cons_self _ _, rfl, rfl⟩
    · rcases ih h2 (k + 1) with ⟨t, ht, ho, hc⟩
      rcases m with ⟨b2, r2⟩
      unfold buildTasks
      exact ⟨t, List.mem_cons_of_mem _ ht, ho, hc⟩

/-- Helper: the completion map delivers the shared flag of the tasks
carrying a description. -/
theorem completionLookup_eq {tasks : List Task} {dsc : String} {v : Bool}
    (hex : ∃ t ∈ tasks, t.original = dsc)
    (hall : ∀ t ∈ tasks, t.original = dsc → t.completed = v) :
    completionLookup tasks dsc = Option.some v := by
  unfold completionLookup
  rcases hex with ⟨u, hu, huo⟩
  have hufil : u ∈ tasks.filter (fun t => t.original == dsc) := by
    rw [List.mem_filter]
    exact ⟨hu, by simp [huo]⟩
  have hne : tasks.filter (fun t => t.original == dsc) ≠ [] :=
    List.ne_nil_of_mem hufil
  rcases Option.isSome_iff_exists.mp (List.getLast?_isSome.mpr hne) with ⟨w, hw⟩
  rw [hw]
  rcases List.mem_filter.mp (mem_of_getLast?_eq_some hw) with ⟨hwp, hwo⟩
  rw [Option.map_some']
  rw [hall w hwp (by simpa using hwo)]

/-- Helper: on a document whose task descriptions are pairwise distinct,
no `readlines` line is changed by `update_todo_file` after a fresh
parse. -/
theorem processLine_unchanged (content : String)
    (h : (taskDescriptions content).Nodup) {L : List Char}
    (hL : L ∈ splitLinesKeep content.data) :
    (processLine (parse_tasks [] content) L).2 = false := by
  unfold processLine
  cases hm : anchoredTaskMark (pyStrip L) with
  | none => rfl
  | some bd =>
    rcases bd with ⟨cur, desc⟩
    dsimp only
    cases hcl : completionLookup (parse_tasks [] content) (String.mk desc) with
    | none => rfl
    | some comp =>
      suffices hcc : comp = cur by
        rw [hcc]
        simp
      have hinv := anchoredTaskMark_eq_some hm
      have hL0 : stripEol L ∈ splitOnNlChars content.data := stripEol_mem_splitOn hL
      rcases exists_strip_decomp (stripEol L) with ⟨lead, trail, hdec, hlead, htrail⟩
      have hfind : findTaskMark (stripEol L) = Option.some (cur, desc ++ trail) := by
        conv_lhs => rw [hdec]
        rw [List.append_assoc, findTaskMark_ws_append hlead, pyStrip_stripEol L,
          hinv, List.cons_append, List.cons_append, List.cons_append,
          List.cons_append, List.cons_append, List.cons_append]
        exact findTaskMark_at_pattern cur (desc ++ trail)
      have hmem : (cur, desc ++ trail) ∈ taskMatches content :=
        List.mem_filterMap.mpr ⟨stripEol L, hL0, hfind⟩
      rcases Option.map_eq_some'.mp hcl with ⟨w, hwlast, hwcomp⟩
      rcases List.mem_filter.mp (mem_of_getLast?_eq_some hwlast) with ⟨hwtasks, hwo⟩
      have hwo' : w.original = String.mk desc := by simpa using hwo
      rcases mem_buildTasks (mem_sortTasks.mp hwtasks) with ⟨b2, r2, hmem2, ho2, hc2⟩
      have hdesc : pyStrip r2 = desc := by
        have h5 : String.mk (pyStrip r2) = String.mk desc := ho2 ▸ hwo'
        injection h5
      have hfix : pyStrip desc = desc := by
        conv_lhs => rw [← hdesc]
        rw [pyStrip_idem, hdesc]
      have heqf : String.mk (pyStrip r2) = String.mk (pyStrip (desc ++ trail)) := by
        rw [hdesc, pyStrip_append_ws htrail, hfix]
      have hnodup : ((taskMatches content).map
          (fun p => String.mk (pyStrip p.2))).Nodup := h
      have hinj := List.inj_on_of_nodup_map hnodup
      have heqp : ((b2, r2) : Bool × List Char) = (cur, desc ++ trail) :=
        hinj hmem2 hmem heqf
      rw [Prod.mk.injEq] at heqp
      rw [hwcomp.symm, hc2]
      rw [show prevCompleted [] (String.mk (pyStrip r2)) = false from rfl]
      rw [Bool.or_false]
      exact heqp.1

/-- Claim C9 (amended): for every checklist document whose task
descriptions are pairwise distinct, parsing from a fresh state and
re-serializing without edits is a byte-identical no-op (the file is not
even rewritten); with duplicated descriptions the completion map keyed
by description collapses them and the round trip may rewrite lines. -/
theorem roundtrip_identity (content : String)
    (h : (taskDescriptions content).Nodup) : roundTrip content = content := by
  unfold roundTrip update_todo_file
  have hall : ((splitLinesKeep content.data).map
      (processLine (parse_tasks [] content))).any (fun p => p.2) = false := by
    rw [List.any_eq_false]
    intro pr hpr
    rcases List.mem_map.mp hpr with ⟨L, hL, hpL⟩
    rw [← hpL, processLine_unchanged content h hL]
    simp
  simp only [hall, Bool.false_eq_true, if_false]

/-- Claim C9 witness: the two-task document of spec Scenario A round
trips unchanged. -/
theorem roundtrip_identity_witness :
    (taskDescriptions "- [ ] Task 1: write file A\n- [ ] Task 2: write file B").Nodup ∧
    roundTrip "- [ ] Task 1: write file A\n- [ ] Task 2: write file B" =
      "- [ ] Task 1: write file A\n- [ ] Task 2: write file B" :=
  ⟨by decide,
    roundtrip_identity "- [ ] Task 1: write file A\n- [ ] Task 2: write file B"
      (by decide)⟩

/-- Claim C1 (counterexample): on a conversation whose assistant message
declared two invocations with only the first answered, the pre-LLM
repair pass strips the assistant message (dropping both invocations) but
keeps the already-received tool response, which is thereby orphaned: the
repaired conversation violates the very invariant the claim states —
before the pass every tool message matched a declaration, after the pass
the response to id1 matches none. -/
theorem clean_orphaned_partial_answer_counterexample :
    clean_orphaned_tool_calls partialMsgs =
      [Message.assistant_message "hi",
       Message.tool_message "result" "id1" "t" Option.none] ∧
    everyToolMsgMatched partialMsgs = true ∧
    everyToolMsgMatched (clean_orphaned_tool_calls partialMsgs) = false := by
  decide

/-- Helper: membership in a dict after an insertion. -/
theorem mem_dictInsert {d : List (String × Nat)} {k k2 : String} {v v2 : Nat} :
    (k, v) ∈ dictInsert d k2 v2 ↔
      (k = k2 ∧ v = v2) ∨ ((k, v) ∈ d ∧ ¬ k = k2) := by
  unfold dictInsert
  by_cases hc : d.any (fun p => p.1 == k2)
  · rw [if_pos hc, List.mem_map]
    constructor
    · rintro ⟨p, hp, hfp⟩
      by_cases hpk : p.1 = k2
      · rw [if_pos (by simp [hpk])] at hfp
        rw [Prod.mk.injEq] at hfp
        exact Or.inl ⟨hfp.1.symm, hfp.2.symm⟩
      · rw [if_neg (by simp [hpk])] at hfp
        refine Or.inr ⟨hfp ▸ hp, ?_⟩
        intro hk
        apply hpk
        rw [hfp]
        exact hk
    · rintro (⟨hk, hv⟩ | ⟨hmem, hne⟩)
      · rcases List.any_eq_true.mp hc with ⟨p, hp, hpk⟩
        refine ⟨p, hp, ?_⟩
        rw [if_pos hpk]
        rw [hk, hv]
      · refine ⟨(k, v), hmem, ?_⟩
        rw [if_neg (by simp [hne])]
  · rw [if_neg hc, List.mem_append]
    constructor
    · rintro (hmem | hunit)
      · refine Or.inr ⟨hmem, ?_⟩
        intro hk
        apply hc
        exact List.any_eq_true.mpr ⟨(k, v), hmem, by simp [hk]⟩
      · rw [List.mem_singleton, Prod.mk.injEq] at hunit
        exact Or.inl hunit
    · rintro (⟨hk, hv⟩ | ⟨hmem, _⟩)
      · exact Or.inr (by rw [List.mem_singleton, Prod.mk.injEq]; exact ⟨hk, hv⟩)
      · exact Or.inl hmem

/-- Helper: membership in the dict after inserting every invocation of
one message at index `i`. -/
theorem mem_declFoldTC {tcs : List ToolCall} {i : Nat}
    {d : List (String × Nat)} {k : String} {v : Nat} :
    ((k, v) ∈ tcs.foldl (fun d2 tc => dictInsert d2 tc.id i) d) ↔
      ((v = i ∧ ∃ tc ∈ tcs, tc.id = k) ∨
        ((k, v) ∈ d ∧ ¬ ∃ tc ∈ tcs, tc.id = k)) := by
  induction tcs generalizing d with
  | nil => simp
  | cons tc rest ih =>
    rw [List.foldl_cons, ih, mem_dictInsert]
    constructor
    · rintro (⟨hv, tc2, htc2, hid⟩ | ⟨hins, hnex⟩)
      · exact Or.inl ⟨hv, tc2, List.mem_cons_of_mem _ htc2, hid⟩
      · rcases hins with ⟨hk, hv⟩ | ⟨hmem, hne⟩
        · exact Or.inl ⟨hv, tc, List.mem_cons_self _ _, hk.symm⟩
        · refine Or.inr ⟨hmem, ?_⟩
          rintro ⟨tc2, htc2, hid⟩
          rcases List.mem_cons.mp htc2 with h1 | h2
          · exact hne (by rw [← hid, h1])
          · exact hnex ⟨tc2, h2, hid⟩
    · rintro (⟨hv, tc2, htc2, hid⟩ | ⟨hmem, hnex⟩)
      · by_cases hex : ∃ tc3 ∈ rest, tc3.id = k
        · exact Or.inl ⟨hv, hex⟩
        · rcases List.mem_cons.mp htc2 with h1 | h2
          · exact Or.inr ⟨Or.inl ⟨by rw [← hid, h1], hv⟩, hex⟩
          · exact absurd ⟨tc2, h2, hid⟩ hex
      · have hkne : ¬ k = tc.id := fun hk =>
          hnex ⟨tc, List.mem_cons_self _ _, hk.symm⟩
        have hex : ¬ ∃ tc3 ∈ rest, tc3.id = k := by
          rintro ⟨tc3, h3, h3id⟩
          exact hnex ⟨tc3, List.mem_cons_of_mem _ h3, h3id⟩
        exact Or.inr ⟨Or.inr ⟨hmem, hkne⟩, hex⟩

/-- Helper: membership in the declaration dict built over an enumerated
message list is decided by the last declaring index. -/
theorem mem_declFold {l : List (Nat × Message)} {d : List (String × Nat)}
    {k : String} {v : Nat} :
    ((k, v) ∈ l.foldl (fun d2 p => if assistantWithTools p.2 then
        p.2.tool_calls.foldl (fun d3 tc => dictInsert d3 tc.id p.1) d2 else d2) d) ↔
      (match lastDecl k l with
       | Option.some i => v = i
       | Option.none => (k, v) ∈ d) := by
  induction l generalizing d with
  | nil => simp [lastDecl]
  | cons p rest ih =>
    rw [List.foldl_cons, ih]
    conv_rhs => rw [lastDecl]
    cases hr : lastDecl k rest with
    | some i => rfl
    | none =>
      dsimp only
      by_cases hA : assistantWithTools p.2
      · rw [if_pos hA, mem_declFoldTC]
        by_cases hAny : ∃ tc ∈ p.2.tool_calls, tc.id = k
        · have hdecl : declaresIn p.2 k = true := by
            unfold declaresIn
            rw [hA, Bool.true_and]
            rcases hAny with ⟨tc, htc, hid⟩
            exact List.any_eq_true.mpr ⟨tc, htc, by simp [hid]⟩
          rw [hdecl]
          simp [hAny]
        · have hdecl : declaresIn p.2 k = false := by
            unfold declaresIn
            rw [hA, Bool.true_and, Bool.eq_false_iff]
            intro hany
            rcases List.any_eq_true.mp hany with ⟨tc, htc, hid⟩
            exact hAny ⟨tc, htc, by simpa using hid⟩
          rw [hdecl]
          simp [hAny]
      · rw [if_neg hA]
        have hdecl : declaresIn p.2 k = false := by
          unfold declaresIn
          rw [Bool.eq_false_iff]
          intro hcon
          exact hA (Bool.and_eq_true_iff.mp hcon).1
        rw [hdecl]
        simp

/-- Helper: dict membership is exactly "last declaring index". -/
theorem mem_assistantDeclDict {msgs : List Message} {k : String} {v : Nat} :
    (k, v) ∈ assistantDeclDict msgs ↔
      lastDecl k (enumFrom 0 msgs) = Option.some v := by
  unfold assistantDeclDict
  rw [mem_declFold]
  cases h : lastDecl k (enumFrom 0 msgs) with
  | some i => simp [eq_comm]
  | none => simp

/-- Helper: a last declaring index comes with its declaring message. -/
theorem lastDecl_mem {k : String} {l : List (Nat × Message)} {j : Nat}
    (h : lastDecl k l = Option.some j) :
    ∃ q ∈ l, q.1 = j ∧ declaresIn q.2 k = true := by
  induction l with
  | nil => exact Option.noConfusion h
  | cons p rest ih =>
    rw [lastDecl] at h
    cases hr : lastDecl k rest with
    | some i =>
      rw [hr] at h
      dsimp only at h
      rcases ih (hr.trans h) with ⟨q, hq, hqj, hqd⟩
      exact ⟨q, List.mem_cons_of_mem _ hq, hqj, hqd⟩
    | none =>
      rw [hr] at h
      dsimp only at h
      by_cases hd : declaresIn p.2 k
      · rw [if_pos hd] at h
        exact ⟨p, List.mem_cons_self _ _, (Option.some.injEq _ _).mp h, hd⟩
      · rw [if_neg hd] at h
        exact Option.noConfusion h

/-- Helper: a declaring message forces a last declaring index to exist. -/
theorem lastDecl_isSome {k : String} {l : List (Nat × Message)}
    {p : Nat × Message} (hp : p ∈ l) (hd : declaresIn p.2 k = true) :
    ∃ j, lastDecl k l = Option.some j := by
  induction l with
  | nil => exact absurd hp (by simp)
  | cons q rest ih =>
    unfold lastDecl
    cases hr : lastDecl k rest with
    | some i => exact ⟨i, rfl⟩
    | none =>
      dsimp only
      rcases List.mem_cons.mp hp with h1 | h2
      · subst h1
        rw [if_pos hd]
        exact ⟨p.1, rfl⟩
      · rcases ih h2 with ⟨j, hj⟩
        rw [hj] at hr
        exact Option.noConfusion hr

/-- Helper: an element is enumerated at some index. -/
theorem enumFrom_exists_of_mem {α : Type} {a : α} {l : List α} {n : Nat}
    (h : a ∈ l) : ∃ i, (i, a) ∈ enumFrom n l := by
  induction l generalizing n with
  | nil => exact absurd h (by simp)
  | cons x rest ih =>
    rcases List.mem_cons.mp h with h1 | h2
    · subst h1
      exact ⟨n, List.mem_cons_self _ _⟩
    · rcases @ih (n + 1) h2 with ⟨i, hi⟩
      exact ⟨i, List.mem_cons_of_mem _ hi⟩

/-- Helper: an enumerated pair's element is a member. -/
theorem mem_of_enumFrom {α : Type} {p : Nat × α} {l : List α} {n : Nat}
    (h : p ∈ enumFrom n l) : p.2 ∈ l := by
  induction l generalizing n with
  | nil => exact absurd h (by simp [enumFrom])
  | cons x rest ih =>
    rcases List.mem_cons.mp h with h1 | h2
    · rw [h1]
      exact List.mem_cons_self _ _
    · exact List.mem_cons_of_mem _ (ih h2)

/-- Helper: under unique declaration ids, two declaring positions for the
same id coincide. -/
theorem uniqueDecl_index_eq {msgs : List Message}
    (hU : uniqueDeclIds msgs = true) {p q : Nat × Message} {k : String}
    (hp : p ∈ enumFrom 0 msgs) (hq : q ∈ enumFrom 0 msgs)
    (hdp : declaresIn p.2 k = true) (hdq : declaresIn q.2 k = true) :
    p.1 = q.1 := by
  unfold uniqueDeclIds at hU
  rw [List.all_eq_true] at hU
  have h1 := hU p hp
  rw [List.all_eq_true] at h1
  have h2 := h1 q hq
  rw [Bool.or_eq_true] at h2
  rcases h2 with h2 | h2
  · simpa using h2
  · exfalso
    rw [Bool.not_eq_eq_eq_not, Bool.not_true, Bool.and_eq_false_iff] at h2
    unfold declaresIn at hdp
    rcases Bool.and_eq_true_iff.mp hdp with ⟨hA, hany⟩
    rcases h2 with h2 | h2
    · rw [hA] at h2
      exact Bool.noConfusion h2
    · rcases List.any_eq_true.mp hany with ⟨tc, htc, hid⟩
      have : p.2.tool_calls.any (fun tc2 => declaresIn q.2 tc2.id) = true := by
        refine List.any_eq_true.mpr ⟨tc, htc, ?_⟩
        rw [show tc.id = k from by simpa using hid]
        exact hdq
      rw [this] at h2
      exact Bool.noConfusion h2

/-- Helper: under unique declaration ids, the dict maps each declared id
to its declaring message's index. -/
theorem declDict_of_decl {msgs : List Message}
    (hU : uniqueDeclIds msgs = true) {i : Nat} {m : Message} {k : String}
    (hi : (i, m) ∈ enumFrom 0 msgs) (hd : declaresIn m k = true) :
    (k, i) ∈ assistantDeclDict msgs := by
  rw [mem_assistantDeclDict]
  rcases lastDecl_isSome hi hd with ⟨j, hj⟩
  rcases lastDecl_mem hj with ⟨q, hq, hqj, hqd⟩
  have h1 := uniqueDecl_index_eq hU hi hq hd hqd
  rw [hj, Option.some.injEq]
  have h2 : i = q.1 := h1
  exact (h2.trans hqj).symm

/-- Helper: tool messages survive the repair pass, so an answered id
stays answered. -/
theorem clean_orphaned_any_responded {msgs : List Message} {id : String}
    (h : respondedB msgs id = true) :
    (clean_orphaned_tool_calls msgs).any (fun tm =>
      tm.role == Role.tool && tm.tool_call_id == Option.some id) = true := by
  rcases List.any_eq_true.mp h with ⟨tm, htm, hpred⟩
  unfold clean_orphaned_tool_calls
  by_cases horph : (orphanedDeclPairs msgs).isEmpty
  · rw [if_pos horph]
    exact List.any_eq_true.mpr ⟨tm, htm, hpred⟩
  · rw [if_neg horph]
    rcases enumFrom_exists_of_mem htm with ⟨j, hj⟩
    refine List.any_eq_true.mpr ⟨tm, ?_, hpred⟩
    refine List.mem_map.mpr ⟨(j, tm), hj, ?_⟩
    have hAtm : assistantWithTools tm = false := by
      unfold assistantWithTools
      rcases Bool.and_eq_true_iff.mp hpred with ⟨hrole, _⟩
      have : tm.role = Role.tool := by simpa using hrole
      rw [this]
      rfl
    rw [hAtm]
    simp

/-- Claim C1 (amended): assuming the spec's own data-model invariants
(invocation ids unique within the conversation, invocation lists only on
assistant messages), after the pre-LLM repair pass every assistant
message's remaining declared invocation has at least one matching tool
message in the repaired conversation — unanswered declarations have been
stripped with their message reduced to text.  The other half of the
claimed invariant (removal of tool messages that match no surviving
declaration) is NOT performed by this pass, as the counterexample
shows. -/
theorem clean_orphaned_answered_or_stripped (msgs : List Message)
    (hA : toolCallsOnlyOnAssistant msgs = true)
    (hU : uniqueDeclIds msgs = true) :
    ∀ m ∈ clean_orphaned_tool_calls msgs, ∀ tc ∈ m.tool_calls,
      (clean_orphaned_tool_calls msgs).any (fun tm =>
        tm.role == Role.tool && tm.tool_call_id == Option.some tc.id) = true := by
  intro m hm tc htc
  have hne : ¬ m.tool_calls.isEmpty = true := by
    rw [List.isEmpty_iff]
    exact List.ne_nil_of_mem htc
  have hOnly : ∀ m2 ∈ msgs, m2.role == Role.assistant || m2.tool_calls.isEmpty :=
    fun m2 hm2 => List.all_eq_true.mp hA m2 hm2
  have hAW : ∀ m2 ∈ msgs, m2.tool_calls ≠ [] → assistantWithTools m2 = true := by
    intro m2 hm2 hne2
    unfold assistantWithTools
    have h2 := hOnly m2 hm2
    simp only [Bool.or_eq_true] at h2
    rcases h2 with hrole | hemp
    · rw [hrole]
      simp [List.isEmpty_iff, hne2]
    · exact absurd (List.isEmpty_iff.mp hemp) hne2
  by_cases horph : (orphanedDeclPairs msgs).isEmpty
  · have hclean : clean_orphaned_tool_calls msgs = msgs := by
      unfold clean_orphaned_tool_calls
      rw [if_pos horph]
    rw [hclean] at hm ⊢
    have hAm : assistantWithTools m = true :=
      hAW m hm (List.ne_nil_of_mem htc)
    rcases enumFrom_exists_of_mem hm with ⟨i, hi⟩
    have hd : declaresIn m tc.id = true := by
      unfold declaresIn
      rw [hAm, Bool.true_and]
      exact List.any_eq_true.mpr ⟨tc, htc, by simp⟩
    have hdict : (tc.id, i) ∈ assistantDeclDict msgs := declDict_of_decl hU hi hd
    have hresp : respondedB msgs tc.id = true := by
      by_contra hF
      have hFf : respondedB msgs tc.id = false := Bool.eq_false_iff.mpr hF
      have : (tc.id, i) ∈ orphanedDeclPairs msgs := by
        unfold orphanedDeclPairs
        exact List.mem_filter.mpr ⟨hdict, by rw [hFf]; rfl⟩
      rw [List.isEmpty_iff] at horph
      rw [horph] at this
      exact absurd this (by simp)
    exact hresp
  · have hclean : clean_orphaned_tool_calls msgs = (enumFrom 0 msgs).map
        (fun p => if assistantWithTools p.2 then
          if p.2.tool_calls.any (fun tc2 =>
            (orphanedDeclPairs msgs).contains (tc2.id, p.1))
          then Message.assistant_message (contentOrEmpty p.2)
          else p.2
        else p.2) := by
      unfold clean_orphaned_tool_calls
      rw [if_neg horph]
    rw [hclean] at hm
    rcases List.mem_map.mp hm with ⟨⟨i, m0⟩, hmem0, hf⟩
    dsimp only at hf
    by_cases hA0 : assistantWithTools m0
    · rw [if_pos hA0] at hf
      by_cases hany : m0.tool_calls.any (fun tc2 =>
          (orphanedDeclPairs msgs).contains (tc2.id, i))
      · rw [if_pos hany] at hf
        rw [← hf] at htc
        exact absurd htc (by simp [Message.assistant_message])
      · rw [if_neg hany] at hf
        have hm0 : m = m0 := hf.symm
        subst hm0
        have hd : declaresIn m tc.id = true := by
          unfold declaresIn
          rw [hA0, Bool.true_and]
          exact List.any_eq_true.mpr ⟨tc, htc, by simp⟩
        have hdict : (tc.id, i) ∈ assistantDeclDict msgs :=
          declDict_of_decl hU hmem0 hd
        have hnotorph : ¬ ((tc.id, i) ∈ orphanedDeclPairs msgs) := by
          intro hcon
          apply hany
          refine List.any_eq_true.mpr ⟨tc, htc, ?_⟩
          exact List.elem_eq_true_of_mem hcon
        have hresp : respondedB msgs tc.id = true := by
          by_contra hF
          have hFf : respondedB msgs tc.id = false := Bool.eq_false_iff.mpr hF
          exact hnotorph (by
            unfold orphanedDeclPairs
            exact List.mem_filter.mpr ⟨hdict, by rw [hFf]; rfl⟩)
        exact clean_orphaned_any_responded hresp
    · rw [if_neg hA0] at hf
      have hm0 : m = m0 := hf.symm
      subst hm0
      exact absurd (hAW m (mem_of_enumFrom hmem0) (List.ne_nil_of_mem htc)) hA0

/-- Claim C1 witness: a conversation with one answered and one unanswered
declaration satisfies the amended property — the unanswered declaration
is stripped and the answered one keeps its matching tool message. -/
theorem clean_orphaned_answered_or_stripped_witness :
    toolCallsOnlyOnAssistant answeredStripMsgs = true ∧
    uniqueDeclIds answeredStripMsgs = true ∧
    ∀ m ∈ clean_orphaned_tool_calls answeredStripMsgs, ∀ tc ∈ m.tool_calls,
      (clean_orphaned_tool_calls answeredStripMsgs).any (fun tm =>
        tm.role == Role.tool && tm.tool_call_id == Option.some tc.id) = true :=
  ⟨by decide, by decide,
    clean_orphaned_answered_or_stripped answeredStripMsgs (by decide) (by decide)⟩

end OpenManus
